import Mathlib

/-!
Verification development for the gybe-kanban task-attempt execution engine.

Shallow embedding of the Rust sources:
  * `crates/utils/src/text.rs`                      (name derivation)
  * `crates/db/src/models/project_repository.rs`    (project repository store ops)
  * `crates/db/src/models/task_attempt.rs`          (attempt creation, expiry sweep)
  * `crates/local-deployment/src/container.rs`      (diff stream policy, exit monitor,
                                                     executor payload construction)

Database tables are lists of row records; SQL statements become list
transformations; transactions become `Except`-valued functions (an error
result leaves the caller's state untouched, mirroring rollback).  UUIDs are
modelled as plain strings, timestamps as integers.
-/

/-! ## crates/utils/src/text.rs : `git_branch_id` -/

/-- A character kept by the slug regex character class `[a-z0-9]`
(`text.rs` line 9: runs of `[^a-z0-9]+` are replaced by `-`). -/
def isKeep (c : Char) : Bool :=
  (97 ≤ c.toNat && c.toNat ≤ 122) || (48 ≤ c.toNat && c.toNat ≤ 57)

/-- Replace each maximal run of non-`[a-z0-9]` characters by a single `'-'`,
the effect of `re.replace_all(&lower, "-")` with `re = [^a-z0-9]+`.
The boolean flag records whether we are inside a run that has already
emitted its `'-'`. -/
def squashAux : Bool → List Char → List Char
  | _, [] => []
  | inRun, c :: rest =>
    if isKeep c then c :: squashAux false rest
    else if inRun then squashAux true rest
    else '-' :: squashAux true rest

/-- `re.replace_all(input, "-")` for `re = [^a-z0-9]+`. -/
def squashNonAlnum (l : List Char) : List Char := squashAux false l

/-- `crates/utils/src/text.rs`, `git_branch_id`:
lowercase, replace non-alphanumeric runs with `-`, trim `-` at both ends,
take the first 16 chars, trim trailing `-`. -/
def git_branch_id (s : String) : String :=
  let lower := s.data.map Char.toLower
  let slug := squashNonAlnum lower
  let trimmed := (slug.dropWhile (· == '-')).rdropWhile (· == '-')
  let cut := trimmed.take 16
  ⟨cut.rdropWhile (· == '-')⟩

/-- Decision procedure for the regular expression `^[a-z0-9]+(-[a-z0-9]+)*$`:
`needAlnum` is true when at least one `[a-z0-9]` character must still be
consumed before the current group may end. -/
def slugRun : Bool → List Char → Bool
  | needAlnum, [] => !needAlnum
  | needAlnum, c :: rest =>
    if c = '-' then !needAlnum && slugRun true rest
    else isKeep c && slugRun false rest

/-- A string matches `^[a-z0-9]+(-[a-z0-9]+)*$`. -/
def matchesSlugRegex (s : String) : Bool := slugRun true s.data

/-! ### Facts about `git_branch_id` -/

/-- Every character in the slug alphabet. -/
def okChars (l : List Char) : Prop := ∀ c ∈ l, isKeep c = true ∨ c = '-'

/-- No two adjacent dashes. -/
def NoDD (l : List Char) : Prop :=
  List.Chain' (fun a b => ¬(a = '-' ∧ b = '-')) l

theorem dash_not_keep : isKeep '-' = false := by decide

theorem okChars_mono {l₁ l₂ : List Char} (h : l₁ ⊆ l₂) (h₂ : okChars l₂) :
    okChars l₁ := fun c hc => h₂ c (h hc)

theorem squashAux_cons_keep (b : Bool) {c : Char} (rest : List Char)
    (h : isKeep c = true) :
    squashAux b (c :: rest) = c :: squashAux false rest := by
  cases b <;> simp only [squashAux, h, if_true]

theorem squashAux_cons_skip {c : Char} (rest : List Char)
    (h : isKeep c = false) :
    squashAux true (c :: rest) = squashAux true rest := by
  simp only [squashAux, h, Bool.false_eq_true, if_false, if_true]

theorem squashAux_cons_dash {c : Char} (rest : List Char)
    (h : isKeep c = false) :
    squashAux false (c :: rest) = '-' :: squashAux true rest := by
  simp only [squashAux, h, Bool.false_eq_true, if_false]

theorem slugRun_nil (b : Bool) : slugRun b [] = !b := rfl

theorem slugRun_cons_dash (b : Bool) (rest : List Char) :
    slugRun b ('-' :: rest) = (!b && slugRun true rest) := by
  simp [slugRun]

theorem slugRun_cons_nondash (b : Bool) {c : Char} (rest : List Char)
    (h : c ≠ '-') :
    slugRun b (c :: rest) = (isKeep c && slugRun false rest) := by
  simp only [slugRun, if_neg h]

theorem squashAux_okChars : ∀ (b : Bool) (l : List Char), okChars (squashAux b l)
  | _, [] => by intro c hc; simp [squashAux] at hc
  | b, c :: rest => by
    intro d hd
    by_cases hk : isKeep c
    · rw [squashAux_cons_keep b rest hk, List.mem_cons] at hd
      rcases hd with h | h
      · exact Or.inl (h ▸ hk)
      · exact squashAux_okChars false rest d h
    · have hk' : isKeep c = false := by simpa using hk
      cases b with
      | true =>
        rw [squashAux_cons_skip rest hk'] at hd
        exact squashAux_okChars true rest d hd
      | false =>
        rw [squashAux_cons_dash rest hk', List.mem_cons] at hd
        rcases hd with h | h
        · exact Or.inr h
        · exact squashAux_okChars true rest d h

/-- The head of `squashAux true l` is never a dash: inside a run, a character
is only emitted once a keep character shows up. -/
theorem squashAux_true_head :
    ∀ (l : List Char) (h : Char), (squashAux true l).head? = some h → isKeep h = true
  | [], h => by simp [squashAux]
  | c :: rest, h => by
    by_cases hk : isKeep c
    · rw [squashAux_cons_keep true rest hk, List.head?_cons, Option.some.injEq]
      intro he; exact he ▸ hk
    · rw [squashAux_cons_skip rest (by simpa using hk)]
      exact squashAux_true_head rest h

theorem squashAux_noDD : ∀ (b : Bool) (l : List Char), NoDD (squashAux b l)
  | _, [] => by simp [squashAux, NoDD]
  | b, c :: rest => by
    by_cases hk : isKeep c
    · rw [NoDD, squashAux_cons_keep b rest hk]
      refine List.chain'_cons'.mpr ⟨?_, squashAux_noDD false rest⟩
      intro h _ hand
      rw [hand.1] at hk
      exact absurd hk (by decide)
    · have hk' : isKeep c = false := by simpa using hk
      cases b with
      | true =>
        rw [NoDD, squashAux_cons_skip rest hk']
        exact squashAux_noDD true rest
      | false =>
        rw [NoDD, squashAux_cons_dash rest hk']
        refine List.chain'_cons'.mpr ⟨?_, squashAux_noDD true rest⟩
        intro h hh hand
        have := squashAux_true_head rest h hh
        rw [hand.2] at this
        exact absurd this (by decide)

/-- On an already-canonical list (slug alphabet, no double dash, no trailing
dash) the squashing pass is the identity; the second component handles the
in-run flag when the head is a keep character. -/
theorem squashAux_eq_self :
    ∀ (l : List Char), okChars l → NoDD l → l.getLast? ≠ some '-' →
      squashAux false l = l ∧
      (∀ h, l.head? = some h → isKeep h = true → squashAux true l = l)
  | [], _, _, _ => by simp [squashAux]
  | c :: rest, hok, hdd, hlast => by
    by_cases hk : isKeep c
    · have hrest : squashAux false rest = rest := by
        rcases rest with _ | ⟨d, t⟩
        · simp [squashAux]
        · exact (squashAux_eq_self (d :: t)
            (okChars_mono (by simp) hok)
            ((List.chain'_cons'.mp hdd).2)
            (by rwa [List.getLast?_cons_cons] at hlast)).1
      refine ⟨?_, fun h _ _ => ?_⟩
      · rw [squashAux_cons_keep false rest hk, hrest]
      · rw [squashAux_cons_keep true rest hk, hrest]
    · have hc : c = '-' := by
        rcases hok c (by simp) with h | h
        · exact absurd h hk
        · exact h
      subst hc
      rcases rest with _ | ⟨d, t⟩
      · exact absurd rfl hlast
      have hd : d ≠ '-' := by
        intro he
        exact (List.chain'_cons'.mp hdd).1 d (by simp) ⟨rfl, he⟩
      have hdk : isKeep d = true := by
        rcases hok d (by simp) with h | h
        · exact h
        · exact absurd h hd
      have hrest : squashAux true (d :: t) = d :: t :=
        (squashAux_eq_self (d :: t)
          (okChars_mono (by simp) hok)
          ((List.chain'_cons'.mp hdd).2)
          (by rwa [List.getLast?_cons_cons] at hlast)).2 d rfl hdk
      refine ⟨?_, fun h hh hkh => ?_⟩
      · rw [squashAux_cons_dash (d :: t) dash_not_keep, hrest]
      · simp only [List.head?_cons, Option.some.injEq] at hh
        rw [← hh] at hkh
        exact absurd hkh (by simp [dash_not_keep])

/-- Any list drawn from the slug alphabet with no double dash and a non-dash
last character matches the slug regex when run with `needAlnum = false`
(the current group may legally end here). -/
theorem slugRun_false_ok :
    ∀ (l : List Char), okChars l → NoDD l → l.getLast? ≠ some '-' →
      slugRun false l = true
  | [], _, _, _ => by simp [slugRun_nil]
  | c :: rest, hok, hdd, hlast => by
    by_cases hc : c = '-'
    · subst hc
      rcases rest with _ | ⟨d, t⟩
      · exact absurd rfl hlast
      have hd : d ≠ '-' := by
        intro he
        exact (List.chain'_cons'.mp hdd).1 d (by simp) ⟨rfl, he⟩
      have hdk : isKeep d = true := by
        rcases hok d (by simp) with h | h
        · exact h
        · exact absurd h hd
      have ht : slugRun false t = true := by
        rcases t with _ | ⟨e, s⟩
        · simp [slugRun_nil]
        · exact slugRun_false_ok (e :: s)
            (okChars_mono (by intro x hx; simp [hx]) hok)
            ((List.chain'_cons'.mp (List.chain'_cons'.mp hdd).2).2)
            (by rw [List.getLast?_cons_cons, List.getLast?_cons_cons] at hlast
                exact hlast)
      rw [slugRun_cons_dash false (d :: t), slugRun_cons_nondash true t hd]
      simp [hdk, ht]
    · have hck : isKeep c = true := by
        rcases hok c (by simp) with h | h
        · exact h
        · exact absurd h hc
      have ht : slugRun false rest = true := by
        rcases rest with _ | ⟨d, t⟩
        · simp [slugRun_nil]
        · exact slugRun_false_ok (d :: t)
            (okChars_mono (by simp) hok)
            ((List.chain'_cons'.mp hdd).2)
            (by rwa [List.getLast?_cons_cons] at hlast)
      rw [slugRun_cons_nondash false rest hc]
      simp [hck, ht]

theorem slugRun_true_ok (l : List Char) (hne : l ≠ [])
    (hok : okChars l) (hdd : NoDD l)
    (hhead : l.head? ≠ some '-') (hlast : l.getLast? ≠ some '-') :
    slugRun true l = true := by
  rcases l with _ | ⟨c, rest⟩
  · exact absurd rfl hne
  have hc : c ≠ '-' := by
    intro he; exact hhead (by simp [he])
  have hck : isKeep c = true := by
    rcases hok c (by simp) with h | h
    · exact h
    · exact absurd h hc
  have ht : slugRun false rest = true := by
    rcases rest with _ | ⟨d, t⟩
    · simp [slugRun_nil]
    · exact slugRun_false_ok (d :: t)
        (okChars_mono (by simp) hok)
        ((List.chain'_cons'.mp hdd).2)
        (by rwa [List.getLast?_cons_cons] at hlast)
  rw [slugRun_cons_nondash true rest hc]
  simp [hck, ht]

theorem toLower_eq_self {c : Char} (h : isKeep c = true ∨ c = '-') :
    c.toLower = c := by
  have hn : ¬(c.toNat ≥ 65 ∧ c.toNat ≤ 90) := by
    rcases h with h | h
    · simp only [isKeep, Bool.or_eq_true, Bool.and_eq_true, decide_eq_true_eq] at h
      omega
    · subst h; decide
  simp [Char.toLower, hn]

theorem map_toLower_id {l : List Char} (hok : okChars l) :
    l.map Char.toLower = l := by
  induction l with
  | nil => rfl
  | cons c t ih =>
    simp only [List.map_cons]
    rw [toLower_eq_self (hok c (by simp)), ih (okChars_mono (by simp) hok)]

theorem isPrefix_head?_ne_dash {l₁ l₂ : List Char} (h : l₁ <+: l₂)
    (hne : l₂.head? ≠ some '-') : l₁.head? ≠ some '-' := by
  rcases l₁ with _ | ⟨c, t⟩
  · simp
  · rcases h with ⟨r, hr⟩
    subst hr
    simpa using hne

theorem dropWhile_dash_head? (l : List Char) :
    (l.dropWhile (· == '-')).head? ≠ some '-' := by
  induction l with
  | nil => simp
  | cons c t ih =>
    by_cases hc : c = '-'
    · subst hc; simpa [List.dropWhile_cons] using ih
    · simp [List.dropWhile_cons, hc]

theorem rdropWhile_dash_getLast? (l : List Char) :
    (l.rdropWhile (· == '-')).getLast? ≠ some '-' := by
  simp only [List.rdropWhile, List.getLast?_reverse]
  exact dropWhile_dash_head? l.reverse

theorem dropWhile_dash_eq_self {l : List Char} (h : l.head? ≠ some '-') :
    l.dropWhile (· == '-') = l := by
  cases l with
  | nil => rfl
  | cons c t =>
    have hc : ¬ c = '-' := fun he => h (by simp [he])
    simp [List.dropWhile_cons, hc]

theorem rdropWhile_dash_eq_self {l : List Char} (h : l.getLast? ≠ some '-') :
    l.rdropWhile (· == '-') = l := by
  simp only [List.rdropWhile]
  rw [dropWhile_dash_eq_self (by simpa using h), List.reverse_reverse]

/-- The output of `git_branch_id` is drawn from the slug alphabet, has no
double dash, neither starts nor ends with a dash, and has at most 16
characters. -/
theorem git_branch_id_canonical (s : String) :
    okChars (git_branch_id s).data ∧ NoDD (git_branch_id s).data ∧
    (git_branch_id s).data.head? ≠ some '-' ∧
    (git_branch_id s).data.getLast? ≠ some '-' ∧
    (git_branch_id s).data.length ≤ 16 := by
  have hdata : (git_branch_id s).data =
      ((((squashNonAlnum (s.data.map Char.toLower)).dropWhile
        (· == '-')).rdropWhile (· == '-')).take 16).rdropWhile (· == '-') := rfl
  rw [hdata]
  set X := squashNonAlnum (s.data.map Char.toLower) with hX
  set h1 := X.dropWhile (· == '-') with hh1
  set h2 := h1.rdropWhile (· == '-') with hh2
  set h3 := h2.take 16 with hh3
  have pre43 : h3.rdropWhile (· == '-') <+: h3 := List.rdropWhile_prefix _ _
  have pre32 : h3 <+: h2 := List.take_prefix _ _
  have pre21 : h2 <+: h1 := List.rdropWhile_prefix _ _
  refine ⟨?_, ?_, ?_, ?_, ?_⟩
  · exact okChars_mono
      (pre43.subset.trans (pre32.subset.trans (pre21.subset.trans
        ((List.dropWhile_suffix _).subset))))
      (squashAux_okChars false _)
  · exact List.Chain'.prefix
      ((squashAux_noDD false _).suffix (List.dropWhile_suffix _))
      (pre43.trans (pre32.trans pre21))
  · exact isPrefix_head?_ne_dash (pre43.trans (pre32.trans pre21))
      (dropWhile_dash_head? X)
  · exact rdropWhile_dash_getLast? h3
  · calc (h3.rdropWhile (· == '-')).length ≤ h3.length := pre43.length_le
      _ ≤ 16 := by rw [hh3, List.length_take]; exact min_le_left _ _

/-- On a canonical list of length at most 16, the whole `git_branch_id`
pipeline is the identity. -/
theorem git_branch_id_fix {l : List Char} (hok : okChars l) (hdd : NoDD l)
    (hhead : l.head? ≠ some '-') (hlast : l.getLast? ≠ some '-')
    (hlen : l.length ≤ 16) :
    git_branch_id ⟨l⟩ = (⟨l⟩ : String) := by
  show (⟨_⟩ : String) = _
  congr 1
  show ((((squashNonAlnum ((String.mk l).data.map Char.toLower)).dropWhile
        (· == '-')).rdropWhile (· == '-')).take 16).rdropWhile (· == '-') = l
  have h0 : (String.mk l).data.map Char.toLower = l := map_toLower_id hok
  rw [h0]
  rw [show squashNonAlnum l = l from (squashAux_eq_self l hok hdd hlast).1]
  rw [dropWhile_dash_eq_self hhead, rdropWhile_dash_eq_self hlast,
    List.take_of_length_le hlen, rdropWhile_dash_eq_self hlast]

/-- C8 counterexample: on input `"!"` the function returns the empty string,
which does not match `^[a-z0-9]+(-[a-z0-9]+)*$` (the regex requires at least
one character), so "for every input string the output matches the regular
expression" is false as stated. -/
theorem c8_counterexample :
    git_branch_id "!" = "" ∧ matchesSlugRegex (git_branch_id "!") = false := by
  constructor <;> rfl

/-- C8 (amended): `git_branch_id` is idempotent on its own output, and for
every input string the output is either empty or matches
`^[a-z0-9]+(-[a-z0-9]+)*$`, and has length at most 16. -/
theorem c8_git_branch_id_slug (s : String) :
    git_branch_id (git_branch_id s) = git_branch_id s ∧
    (git_branch_id s = "" ∨ matchesSlugRegex (git_branch_id s) = true) ∧
    (git_branch_id s).length ≤ 16 := by
  obtain ⟨hok, hdd, hhead, hlast, hlen⟩ := git_branch_id_canonical s
  refine ⟨?_, ?_, hlen⟩
  · have := git_branch_id_fix hok hdd hhead hlast hlen
    simpa using this
  · by_cases hne : (git_branch_id s).data = []
    · left
      exact String.ext hne
    · right
      exact slugRun_true_ok _ hne hok hdd hhead hlast

/-! ## crates/db/src/models : data model

Tables are lists of row records.  UUIDs are strings, timestamps are
integers.  Columns never consulted by any claim (executor, timestamps on
rows whose age is irrelevant, …) are omitted.  A transactional operation is
a pure function returning `Except`; an `error` result models rollback: the
caller keeps the unchanged input state. -/

structure ProjectRow where
  id : String
  git_repo_path : String
deriving DecidableEq

structure ProjectRepoRow where
  id : String
  project_id : String
  name : String
  git_repo_path : String
  root_path : String
  is_primary : Bool
  created_at : Int
deriving DecidableEq

structure TaskRow where
  id : String
  project_id : String
deriving DecidableEq

structure TaskAttemptRow where
  id : String
  task_id : String
deriving DecidableEq

structure TaskAttemptRepoRow where
  id : String
  task_attempt_id : String
  project_repository_id : String
  is_primary : Bool
deriving DecidableEq

structure Db where
  projects : List ProjectRow
  project_repositories : List ProjectRepoRow
  tasks : List TaskRow
  task_attempts : List TaskAttemptRow
  task_attempt_repositories : List TaskAttemptRepoRow
deriving DecidableEq

/-- `ProjectRepositoryError` (`project_repository.rs` lines 10-24); the
`Database` variant is unreachable in the pure model. -/
inductive PRError
  | validation (msg : String)
  | duplicateName
  | duplicatePath
  | notFound
  | primaryRequired
deriving DecidableEq

/-- Rust `str::trim` on both ends (whitespace). -/
def strTrim (s : String) : String :=
  ⟨(s.data.dropWhile Char.isWhitespace).rdropWhile Char.isWhitespace⟩

/-- SQLite `LOWER` / Rust `to_lowercase` (per-char lowercasing suffices for
the equality tests the store performs). -/
def strLower (s : String) : String := ⟨s.data.map Char.toLower⟩

/-- The `while value.starts_with("./")` loop of `normalize_root_path`
(lines 507-509): strip a leading `./` then `trim_start`, repeatedly.  Fuel
is the list length, an upper bound on the number of iterations (each
iteration removes at least two characters). -/
def stripDotSlashAux : Nat → List Char → List Char
  | 0, l => l
  | fuel + 1, l =>
    match l with
    | '.' :: '/' :: rest => stripDotSlashAux fuel (rest.dropWhile Char.isWhitespace)
    | _ => l

def isSlashChar (c : Char) : Bool := c = '/' || c = '\\'

/-- `project_repository.rs` lines 504-514. -/
def normalize_root_path (root_path : Option String) : String :=
  let v0 := strTrim (root_path.getD "")
  let v1 := stripDotSlashAux v0.data.length v0.data
  let v2 := (v1.dropWhile isSlashChar).rdropWhile isSlashChar
  if v2 = ['.'] then "" else ⟨v2⟩

structure CreateProjectRepository where
  name : String
  git_repo_path : String
  root_path : Option String
  is_primary : Bool
deriving DecidableEq

structure UpdateProjectRepository where
  name : Option String
  git_repo_path : Option String
  root_path : Option String
  is_primary : Option Bool
deriving DecidableEq

/-- `SELECT id FROM project_repositories WHERE project_id = $1`. -/
def projectRepoIds (db : Db) (pid : String) : List String :=
  (db.project_repositories.filter (fun r => r.project_id == pid)).map (·.id)

/-- `UPDATE project_repositories SET is_primary = 0 WHERE project_id = $1
[AND id != $2] AND is_primary = 1` (create lines 183-191 with
`excludeRepo = none`, update lines 365-374 with `excludeRepo = some rid`). -/
def clearPrimFn (pid : String) (excludeRepo : Option String) (r : ProjectRepoRow) :
    ProjectRepoRow :=
  if r.project_id == pid && excludeRepo.all (fun e => r.id != e) && r.is_primary
  then { r with is_primary := false } else r

def clearProjectPrimaries (db : Db) (pid : String) (excludeRepo : Option String) : Db :=
  { db with project_repositories :=
      db.project_repositories.map (clearPrimFn pid excludeRepo) }

/-- `UPDATE task_attempt_repositories SET is_primary = 0 WHERE
project_repository_id IN (SELECT id FROM project_repositories WHERE
project_id = $1 [AND id != $2])` (create lines 193-203, update 376-387). -/
def clearAttemptRepoPrimaries (db : Db) (pid : String) (excludeRepo : Option String) : Db :=
  { db with task_attempt_repositories := db.task_attempt_repositories.map (fun ar =>
      if ((db.project_repositories.filter (fun r =>
            r.project_id == pid && excludeRepo.all (fun e => r.id != e))).map
            (·.id)).contains ar.project_repository_id
      then { ar with is_primary := false } else ar) }

/-- Attempts of the project: `task_attempts ta INNER JOIN tasks t ON
ta.task_id = t.id WHERE t.project_id = $1` (lines 522-530). -/
def attemptIdsForProject (db : Db) (pid : String) : List String :=
  (db.task_attempts.filter (fun ta =>
      db.tasks.any (fun t => t.id == ta.task_id && t.project_id == pid))).map (·.id)

/-- One row of the bulk `INSERT ... ON CONFLICT(task_attempt_id,
project_repository_id) DO UPDATE SET is_primary = excluded.is_primary`
(lines 536-549).  The freshly generated row UUID is modelled by a
deterministic surrogate; no claim consults it. -/
def upsertMembership (rows : List TaskAttemptRepoRow) (attemptId repoId : String)
    (isPrim : Bool) : List TaskAttemptRepoRow :=
  if rows.any (fun ar => ar.task_attempt_id == attemptId && ar.project_repository_id == repoId)
  then rows.map (fun ar =>
        if ar.task_attempt_id == attemptId && ar.project_repository_id == repoId
        then { ar with is_primary := isPrim } else ar)
  else rows ++ [{ id := attemptId ++ "#" ++ repoId, task_attempt_id := attemptId,
                  project_repository_id := repoId, is_primary := isPrim }]

/-- `ensure_attempt_memberships` (lines 516-552). -/
def ensure_attempt_memberships (db : Db) (pid repoId : String) (isPrim : Bool) : Db :=
  let newRows := (attemptIdsForProject db pid).foldl
    (fun rows aid => upsertMembership rows aid repoId isPrim)
    db.task_attempt_repositories
  { db with task_attempt_repositories := newRows }

/-- `sync_task_attempt_repository_flags` (lines 554-575): every
attempt-repository row referencing a repository of the project gets that
repository's `is_primary`. -/
def sync_task_attempt_repository_flags (db : Db) (pid : String) : Db :=
  { db with task_attempt_repositories := db.task_attempt_repositories.map (fun ar =>
      if (projectRepoIds db pid).contains ar.project_repository_id then
        match db.project_repositories.find? (fun r => r.id == ar.project_repository_id) with
        | some r => { ar with is_primary := r.is_primary }
        | none => ar
      else ar) }

/-- `ProjectRepository::create` (`project_repository.rs` lines 128-237).
`newId` stands for the `Uuid::new_v4()` of the inserted row and `now` for
its `created_at`. -/
def ProjectRepository_create (db : Db) (pid : String) (data : CreateProjectRepository)
    (newId : String) (now : Int) : Except PRError (ProjectRepoRow × Db) :=
  if strTrim data.name = "" then
    .error (.validation "Repository name cannot be empty")
  else if strTrim data.git_repo_path = "" then
    .error (.validation "Repository path cannot be empty")
  else
    let normalizedRoot := normalize_root_path data.root_path
    if db.project_repositories.any (fun r =>
        r.project_id == pid && strLower r.name == strLower data.name) then
      .error .duplicateName
    else if db.project_repositories.any (fun r =>
        r.project_id == pid && r.git_repo_path == data.git_repo_path &&
        r.root_path == normalizedRoot) then
      .error .duplicatePath
    else
      let db1 := if data.is_primary
        then clearAttemptRepoPrimaries (clearProjectPrimaries db pid none) pid none
        else db
      let repo : ProjectRepoRow :=
        { id := newId, project_id := pid, name := data.name,
          git_repo_path := data.git_repo_path, root_path := normalizedRoot,
          is_primary := data.is_primary, created_at := now }
      let db2 := { db1 with project_repositories := db1.project_repositories ++ [repo] }
      let db3 := ensure_attempt_memberships db2 pid repo.id repo.is_primary
      .ok (repo, sync_task_attempt_repository_flags db3 pid)

/-- Resolution of an optional updated text field (update lines 271-293):
`Some` must trim to a non-empty value, `None` keeps the current one. -/
def resolveField (cur : String) (upd : Option String) (errMsg : String) :
    Except PRError String :=
  match upd with
  | some v => if strTrim v = "" then .error (.validation errMsg) else .ok (strTrim v)
  | none => .ok cur

/-- The column assignments of the final `UPDATE ... WHERE id = $1` (update
lines 390-414). -/
def setUpdatedFields (resolvedName resolvedPath resolvedRoot : String)
    (resolvedPrimary : Bool) (r : ProjectRepoRow) : ProjectRepoRow :=
  { r with name := resolvedName, git_repo_path := resolvedPath,
           root_path := resolvedRoot, is_primary := resolvedPrimary }

def updateRowFn (rid resolvedName resolvedPath resolvedRoot : String)
    (resolvedPrimary : Bool) (r : ProjectRepoRow) : ProjectRepoRow :=
  if r.id == rid
  then setUpdatedFields resolvedName resolvedPath resolvedRoot resolvedPrimary r
  else r

/-- `ProjectRepository::update` (`project_repository.rs` lines 239-423). -/
def ProjectRepository_update (db : Db) (pid rid : String)
    (data : UpdateProjectRepository) : Except PRError (ProjectRepoRow × Db) :=
  match db.project_repositories.find? (fun r => r.id == rid) with
  | none => .error .notFound
  | some existing =>
    if existing.project_id ≠ pid then .error .notFound
    else
      match resolveField existing.name data.name "Repository name cannot be empty" with
      | .error e => .error e
      | .ok resolvedName =>
        match resolveField existing.git_repo_path data.git_repo_path
            "Repository path cannot be empty" with
        | .error e => .error e
        | .ok resolvedPath =>
          let resolvedRoot := match data.root_path with
            | some root => normalize_root_path (some root)
            | none => existing.root_path
          let resolvedPrimary := data.is_primary.getD existing.is_primary
          if strLower resolvedName ≠ strLower existing.name ∧
              db.project_repositories.any (fun r =>
                r.project_id == pid && strLower r.name == strLower resolvedName &&
                r.id != rid) = true then
            .error .duplicateName
          else if (existing.git_repo_path ≠ resolvedPath ∨ existing.root_path ≠ resolvedRoot) ∧
              db.project_repositories.any (fun r =>
                r.project_id == pid && r.git_repo_path == resolvedPath &&
                r.root_path == resolvedRoot && r.id != rid) = true then
            .error .duplicatePath
          else if resolvedPrimary = false ∧ existing.is_primary = true ∧
              db.project_repositories.any (fun r =>
                r.project_id == pid && r.id != rid && r.is_primary) = false then
            .error .primaryRequired
          else
            let db1 := if resolvedPrimary
              then clearAttemptRepoPrimaries (clearProjectPrimaries db pid (some rid))
                    pid (some rid)
              else db
            let newRepos := db1.project_repositories.map
              (updateRowFn rid resolvedName resolvedPath resolvedRoot resolvedPrimary)
            let db2 := { db1 with project_repositories := newRepos }
            let db3 := ensure_attempt_memberships db2 pid rid resolvedPrimary
            .ok (setUpdatedFields resolvedName resolvedPath resolvedRoot resolvedPrimary
                  existing,
                 sync_task_attempt_repository_flags db3 pid)

/-- `ORDER BY is_primary DESC, created_at ASC LIMIT 1` over the remaining
sibling rows (delete lines 456-467); ties keep the earlier row. -/
def betterCandidate (a b : ProjectRepoRow) : ProjectRepoRow :=
  if b.is_primary && !a.is_primary then b
  else if a.is_primary == b.is_primary && b.created_at < a.created_at then b
  else a

def pickReplacement : List ProjectRepoRow → Option ProjectRepoRow
  | [] => none
  | r :: rest => some (rest.foldl betterCandidate r)

/-- `UPDATE project_repositories SET is_primary = 1 WHERE id = $1`
(delete lines 484-494). -/
def promoteFn (candId : String) (r : ProjectRepoRow) : ProjectRepoRow :=
  if r.id == candId then { r with is_primary := true } else r

/-- `ProjectRepository::delete` (`project_repository.rs` lines 425-501).
Attempt-repository rows referencing the deleted repository are left in
place (any cascade lives in the schema, not in this function); the final
sync only touches rows whose repository still belongs to the project. -/
def ProjectRepository_delete (db : Db) (pid rid : String) : Except PRError Db :=
  match db.project_repositories.find? (fun r => r.id == rid) with
  | none => .error .notFound
  | some repository =>
    if repository.project_id ≠ pid then .error .notFound
    else
      let replacementResult : Except PRError (Option ProjectRepoRow) :=
        if repository.is_primary then
          match pickReplacement (db.project_repositories.filter (fun r =>
              r.project_id == pid && r.id != rid)) with
          | some cand => .ok (some cand)
          | none => .error .primaryRequired
        else .ok none
      match replacementResult with
      | .error e => .error e
      | .ok replacement =>
        let db1 := { db with project_repositories :=
            db.project_repositories.filter (fun r => r.id != rid) }
        let db2 := match replacement with
          | some cand =>
            { db1 with project_repositories :=
                db1.project_repositories.map (promoteFn cand.id) }
          | none => db1
        .ok (sync_task_attempt_repository_flags db2 pid)

/-! ### Primary-uniqueness and mirror invariants -/

/-- A primary row of project `q`. -/
def isPrimaryFor (q : String) (x : ProjectRepoRow) : Bool :=
  x.project_id == q && x.is_primary

/-- Spec §8.1: every project that has at least one repository row has
exactly one primary repository row. -/
def PrimaryUnique (repos : List ProjectRepoRow) : Prop :=
  ∀ r ∈ repos, repos.countP (isPrimaryFor r.project_id) = 1

def ProjectPrimaryInvariant (db : Db) : Prop :=
  PrimaryUnique db.project_repositories

/-- Spec §8.3: attempt-repository rows mirror the `is_primary` flag of the
project repository they reference. -/
def MirroredPrimary (db : Db) (pid : String) : Prop :=
  ∀ ar ∈ db.task_attempt_repositories, ∀ r ∈ db.project_repositories,
    r.project_id = pid → ar.project_repository_id = r.id → ar.is_primary = r.is_primary

theorem find?_id_of_nodup {l : List ProjectRepoRow}
    (hnd : (l.map (·.id)).Nodup) {r : ProjectRepoRow} (hr : r ∈ l) :
    l.find? (fun x => x.id == r.id) = some r := by
  induction l with
  | nil => cases hr
  | cons x t ih =>
    simp only [List.map_cons, List.nodup_cons] at hnd
    rcases List.mem_cons.mp hr with he | ht
    · subst he
      simp [List.find?]
    · have hb : (x.id == r.id) = false := by
        simp only [beq_eq_false_iff_ne, ne_eq]
        intro he
        exact hnd.1 (he ▸ List.mem_map_of_mem (·.id) ht)
      simp only [List.find?, hb]
      exact ih hnd.2 ht

theorem two_le_length_of_mem {α : Type} {l : List α} {a b : α}
    (ha : a ∈ l) (hb : b ∈ l) (hab : a ≠ b) : 2 ≤ l.length := by
  cases l with
  | nil => cases ha
  | cons x t =>
    cases t with
    | nil =>
      simp only [List.mem_singleton] at ha hb
      exact absurd (ha.trans hb.symm) hab
    | cons y s => simp only [List.length_cons]; omega

theorem two_le_countP {α : Type} {l : List α} {p : α → Bool} {a b : α}
    (ha : a ∈ l) (hb : b ∈ l) (hab : a ≠ b)
    (hpa : p a = true) (hpb : p b = true) : 2 ≤ l.countP p := by
  rw [List.countP_eq_length_filter]
  exact two_le_length_of_mem (List.mem_filter.mpr ⟨ha, hpa⟩)
    (List.mem_filter.mpr ⟨hb, hpb⟩) hab

/-- `countP` of a predicate that appears exactly once by id. -/
theorem countP_id_eq_one {l : List ProjectRepoRow}
    (hnd : (l.map (·.id)).Nodup) {r : ProjectRepoRow} (hr : r ∈ l) :
    l.countP (fun x => x.id == r.id) = 1 := by
  induction l with
  | nil => cases hr
  | cons x t ih =>
    simp only [List.map_cons, List.nodup_cons] at hnd
    rcases List.mem_cons.mp hr with he | ht
    · have hxr : x.id = r.id := by rw [he]
      rw [List.countP_cons]
      have h0 : t.countP (fun y => y.id == r.id) = 0 := by
        rw [List.countP_eq_zero]
        intro a ha hba
        rw [beq_iff_eq] at hba
        refine hnd.1 ?_
        rw [hxr, ← hba]
        exact List.mem_map_of_mem (·.id) ha
      rw [h0, if_pos (by simp [hxr])]
    · have hb : (x.id == r.id) = false := by
        simp only [beq_eq_false_iff_ne, ne_eq]
        intro he
        exact hnd.1 (he ▸ List.mem_map_of_mem (·.id) ht)
      rw [List.countP_cons, hb, if_neg (by simp), Nat.add_zero]
      exact ih hnd.2 ht

theorem mem_projectRepoIds {db : Db} {pid : String} {r : ProjectRepoRow}
    (hr : r ∈ db.project_repositories) (hpid : r.project_id = pid) :
    r.id ∈ projectRepoIds db pid := by
  unfold projectRepoIds
  apply List.mem_map_of_mem
  rw [List.mem_filter]
  refine ⟨hr, ?_⟩
  simp [hpid]

/-- After `sync_task_attempt_repository_flags`, every attempt-repository row
referencing a repository of the project carries that repository's flag. -/
theorem mirrored_sync (db : Db) (pid : String)
    (hids : (db.project_repositories.map (·.id)).Nodup) :
    MirroredPrimary (sync_task_attempt_repository_flags db pid) pid := by
  intro ar har r hr hrpid hid
  have hrepos : (sync_task_attempt_repository_flags db pid).project_repositories
      = db.project_repositories := rfl
  rw [hrepos] at hr
  rw [show (sync_task_attempt_repository_flags db pid).task_attempt_repositories
      = db.task_attempt_repositories.map _ from rfl] at har
  rcases List.mem_map.mp har with ⟨ar0, har0, hfe⟩
  subst hfe
  have hid0 : ar0.project_repository_id = r.id := by
    revert hid
    split
    · split <;> intro hid <;> exact hid
    · intro hid; exact hid
  have hcont : (projectRepoIds db pid).contains ar0.project_repository_id = true := by
    rw [hid0]
    exact List.elem_eq_true_of_mem (mem_projectRepoIds hr hrpid)
  have hfind : db.project_repositories.find? (fun x => x.id == ar0.project_repository_id)
      = some r := by
    rw [hid0]
    exact find?_id_of_nodup hids hr
  simp only [hcont, if_true, hfind]

/-- C2: immediately after a successful `ProjectRepository::create`, `update`
or `delete` on a project, every `task_attempt_repositories` row whose
repository belongs to that project has `is_primary` equal to the referenced
`project_repositories` row's `is_primary` (the id-uniqueness hypothesis is
the primary-key constraint of the table). -/
theorem c2_mirrored_primary (db : Db) (pid : String) :
    (∀ data newId now repo db',
      ProjectRepository_create db pid data newId now = .ok (repo, db') →
      (db'.project_repositories.map (·.id)).Nodup →
      MirroredPrimary db' pid) ∧
    (∀ rid data repo db',
      ProjectRepository_update db pid rid data = .ok (repo, db') →
      (db'.project_repositories.map (·.id)).Nodup →
      MirroredPrimary db' pid) ∧
    (∀ rid db',
      ProjectRepository_delete db pid rid = .ok db' →
      (db'.project_repositories.map (·.id)).Nodup →
      MirroredPrimary db' pid) := by
  refine ⟨?_, ?_, ?_⟩
  · intro data newId now repo db' hc hnd
    simp only [ProjectRepository_create] at hc
    split at hc
    · cases hc
    split at hc
    · cases hc
    split at hc
    · cases hc
    split at hc
    · cases hc
    injection hc with h
    injection h with hrepo hdb'
    subst hdb'
    exact mirrored_sync _ pid hnd
  · intro rid data repo db' hc hnd
    simp only [ProjectRepository_update] at hc
    split at hc
    · cases hc
    split at hc
    · cases hc
    split at hc
    · cases hc
    split at hc
    · cases hc
    split at hc
    · cases hc
    split at hc
    · cases hc
    split at hc
    · cases hc
    injection hc with h
    injection h with hrepo hdb'
    subst hdb'
    exact mirrored_sync _ pid hnd
  · intro rid db' hc hnd
    simp only [ProjectRepository_delete] at hc
    split at hc
    · cases hc
    split at hc
    · cases hc
    split at hc
    · cases hc
    injection hc with hdb'
    subst hdb'
    exact mirrored_sync _ pid hnd

/-! ### Counting lemmas for the primary-uniqueness invariant -/

theorem isPrimaryFor_iff {q : String} {x : ProjectRepoRow} :
    isPrimaryFor q x = true ↔ (x.project_id = q ∧ x.is_primary = true) := by
  simp [isPrimaryFor]

theorem clearPrimFn_project_id (pid : String) (ex : Option String)
    (r : ProjectRepoRow) : (clearPrimFn pid ex r).project_id = r.project_id := by
  unfold clearPrimFn; split <;> rfl

theorem clearPrimFn_id (pid : String) (ex : Option String)
    (r : ProjectRepoRow) : (clearPrimFn pid ex r).id = r.id := by
  unfold clearPrimFn; split <;> rfl

theorem updateRowFn_project_id (rid n p rt : String) (b : Bool)
    (r : ProjectRepoRow) : (updateRowFn rid n p rt b r).project_id = r.project_id := by
  unfold updateRowFn setUpdatedFields; split <;> rfl

theorem promoteFn_project_id (cid : String) (r : ProjectRepoRow) :
    (promoteFn cid r).project_id = r.project_id := by
  unfold promoteFn; split <;> rfl

theorem eq_of_mem_id {l : List ProjectRepoRow}
    (hnd : (l.map (·.id)).Nodup) {a b : ProjectRepoRow}
    (ha : a ∈ l) (hb : b ∈ l) (hid : a.id = b.id) : a = b := by
  induction l with
  | nil => cases ha
  | cons x t ih =>
    simp only [List.map_cons, List.nodup_cons] at hnd
    rcases List.mem_cons.mp ha with hax | hat <;>
      rcases List.mem_cons.mp hb with hbx | hbt
    · rw [hax, hbx]
    · exact absurd (hax ▸ hid ▸ List.mem_map_of_mem (·.id) hbt) hnd.1
    · exact absurd (hbx ▸ hid ▸ List.mem_map_of_mem (·.id) hat) hnd.1
    · exact ih hnd.2 hat hbt

/-- Clearing without exclusion leaves no primary row of the project. -/
theorem countP_clear_self (l : List ProjectRepoRow) (pid : String) :
    (l.map (clearPrimFn pid none)).countP (isPrimaryFor pid) = 0 := by
  rw [List.countP_map, List.countP_eq_zero]
  intro r _ hcon
  rw [Function.comp_apply, isPrimaryFor_iff] at hcon
  have hproj := clearPrimFn_project_id pid none r
  unfold clearPrimFn at hcon hproj
  by_cases hp : (r.project_id == pid && (none : Option String).all
      (fun e => r.id != e) && r.is_primary) = true
  · rw [if_pos hp] at hcon
    exact absurd hcon.2 (by simp)
  · rw [if_neg hp] at hcon
    simp only [Option.all_none, Bool.and_true, Bool.and_eq_true, beq_iff_eq] at hp
    exact hp ⟨hcon.1, hcon.2⟩

/-- Clearing does not change the primary count of any other project. -/
theorem countP_clear_other (l : List ProjectRepoRow) (pid : String)
    (ex : Option String) {q : String} (hq : q ≠ pid) :
    (l.map (clearPrimFn pid ex)).countP (isPrimaryFor q) = l.countP (isPrimaryFor q) := by
  rw [List.countP_map]
  apply List.countP_congr
  intro r _
  unfold Function.comp
  by_cases hpid : r.project_id = pid
  · constructor
    · intro h
      rw [isPrimaryFor_iff, clearPrimFn_project_id] at h
      exact absurd (hpid.symm.trans h.1) (Ne.symm hq)
    · intro h
      rw [isPrimaryFor_iff] at h
      exact absurd (hpid.symm.trans h.1) (Ne.symm hq)
  · have : clearPrimFn pid ex r = r := by
      unfold clearPrimFn
      rw [if_neg]
      simp only [Bool.and_eq_true, beq_iff_eq]
      intro hcon
      exact hpid hcon.1.1
    rw [this]

theorem sync_repos (db : Db) (pid : String) :
    (sync_task_attempt_repository_flags db pid).project_repositories
      = db.project_repositories := rfl

theorem ensure_repos (db : Db) (pid rid : String) (b : Bool) :
    (ensure_attempt_memberships db pid rid b).project_repositories
      = db.project_repositories := rfl

theorem clearAttempt_repos (db : Db) (pid : String) (ex : Option String) :
    (clearAttemptRepoPrimaries db pid ex).project_repositories
      = db.project_repositories := rfl

theorem clearProject_repos (db : Db) (pid : String) (ex : Option String) :
    (clearProjectPrimaries db pid ex).project_repositories
      = db.project_repositories.map (clearPrimFn pid ex) := rfl

/-- `create` with `is_primary = true`: clearing all primaries of the project
and appending the new primary row keeps exactly one primary per project. -/
theorem primaryUnique_clear_insert (l : List ProjectRepoRow) (pid : String)
    (row : ProjectRepoRow) (hrow : row.project_id = pid)
    (hprim : row.is_primary = true) (hinv : PrimaryUnique l) :
    PrimaryUnique (l.map (clearPrimFn pid none) ++ [row]) := by
  have hrowcount : ∀ q : String,
      List.countP (isPrimaryFor q) [row] = if pid = q then 1 else 0 := by
    intro q
    by_cases hq : pid = q
    · rw [if_pos hq]
      have : isPrimaryFor q row = true := by
        rw [isPrimaryFor_iff]; exact ⟨hrow.trans hq, hprim⟩
      simp [List.countP_cons, this]
    · rw [if_neg hq]
      have : isPrimaryFor q row = false := by
        rw [Bool.eq_false_iff]
        intro hcon
        rw [isPrimaryFor_iff] at hcon
        exact hq (hrow.symm.trans hcon.1)
      simp [List.countP_cons, this]
  intro r' hr'
  rw [List.countP_append]
  rcases List.mem_append.mp hr' with hmap | hrow'
  · rcases List.mem_map.mp hmap with ⟨r0, hr0, hfe⟩
    have hq : r'.project_id = r0.project_id := by
      rw [← hfe, clearPrimFn_project_id]
    by_cases hqp : r'.project_id = pid
    · rw [hqp, countP_clear_self, hrowcount pid, if_pos rfl]
    · rw [countP_clear_other l pid none hqp, hrowcount, if_neg (fun h => hqp h.symm),
        hq, hinv r0 hr0]
  · have : r' = row := by simpa using hrow'
    subst this
    rw [hrow, countP_clear_self, hrowcount pid, if_pos rfl]

/-- `create` with `is_primary = false` on a project that already has rows
(hence, by the invariant, already has its one primary). -/
theorem primaryUnique_insert_nonprimary (l : List ProjectRepoRow) (pid : String)
    (row : ProjectRepoRow) (hrow : row.project_id = pid)
    (hnp : row.is_primary = false) (hinv : PrimaryUnique l)
    (hex : ∃ r ∈ l, r.project_id = pid) :
    PrimaryUnique (l ++ [row]) := by
  have hrow0 : ∀ q : String, List.countP (isPrimaryFor q) [row] = 0 := by
    intro q
    have : isPrimaryFor q row = false := by
      rw [Bool.eq_false_iff]
      intro hcon
      rw [isPrimaryFor_iff] at hcon
      rw [hnp] at hcon
      exact Bool.false_ne_true hcon.2
    simp [List.countP_cons, this]
  intro r' hr'
  rw [List.countP_append, hrow0, Nat.add_zero]
  rcases List.mem_append.mp hr' with hl | hr
  · exact hinv r' hl
  · have : r' = row := by simpa using hr
    subst this
    obtain ⟨r0, hr0, hr0p⟩ := hex
    rw [hrow, ← hr0p]
    exact hinv r0 hr0

theorem updateRowFn_of_ne (rid n p rt : String) (b : Bool) {r : ProjectRepoRow}
    (h : r.id ≠ rid) : updateRowFn rid n p rt b r = r := by
  unfold updateRowFn
  rw [if_neg]
  simpa using h

theorem clearPrimFn_of_id_eq (pid rid : String) {r : ProjectRepoRow}
    (h : r.id = rid) : clearPrimFn pid (some rid) r = r := by
  unfold clearPrimFn
  rw [if_neg]
  simp [h]

/-- `update` promoting a row to primary: clear the project's other
primaries, then the updated row is the project's single primary. -/
theorem primaryUnique_update_promote (l : List ProjectRepoRow)
    (pid rid n p rt : String) (hids : (l.map (·.id)).Nodup)
    {existing : ProjectRepoRow} (hmem : existing ∈ l) (hid : existing.id = rid)
    (hproj : existing.project_id = pid) (hinv : PrimaryUnique l) :
    PrimaryUnique ((l.map (clearPrimFn pid (some rid))).map
      (updateRowFn rid n p rt true)) := by
  rw [List.map_map]
  have hpoint : ∀ q : String, ∀ r ∈ l,
      isPrimaryFor q (updateRowFn rid n p rt true (clearPrimFn pid (some rid) r))
        = (if q = pid then r.id == rid
           else isPrimaryFor q r) := by
    intro q r hr
    by_cases hrid : r.id = rid
    · have hre : r = existing := eq_of_mem_id hids hr hmem (hrid.trans hid.symm)
      rw [clearPrimFn_of_id_eq pid rid hrid]
      have : updateRowFn rid n p rt true r
          = setUpdatedFields n p rt true r := by
        unfold updateRowFn; rw [if_pos]; simpa using hrid
      rw [this]
      have hup : isPrimaryFor q (setUpdatedFields n p rt true r)
          = (r.project_id == q) := by
        simp [isPrimaryFor, setUpdatedFields]
      rw [hup]
      by_cases hq : q = pid
      · rw [if_pos hq]
        have : r.project_id = q := by rw [hre, hproj, hq]
        simp [this, hrid]
      · rw [if_neg hq]
        have h1 : (r.project_id == q) = false := by
          rw [beq_eq_false_iff_ne]
          rw [hre, hproj]
          exact fun hc => hq hc.symm
        have h2 : isPrimaryFor q r = false := by
          rw [Bool.eq_false_iff]
          intro hcon
          rw [isPrimaryFor_iff] at hcon
          rw [hre, hproj] at hcon
          exact hq hcon.1.symm
        rw [h1, h2]
    · have hclear_id : (clearPrimFn pid (some rid) r).id = r.id :=
        clearPrimFn_id pid (some rid) r
      have hupd : updateRowFn rid n p rt true (clearPrimFn pid (some rid) r)
          = clearPrimFn pid (some rid) r := by
        apply updateRowFn_of_ne
        rw [hclear_id]; exact hrid
      rw [hupd]
      by_cases hq : q = pid
      · rw [if_pos hq]
        have hfalse : isPrimaryFor q (clearPrimFn pid (some rid) r) = false := by
          rw [Bool.eq_false_iff]
          intro hcon
          rw [isPrimaryFor_iff, clearPrimFn_project_id] at hcon
          have hprim' : (clearPrimFn pid (some rid) r).is_primary = true := hcon.2
          unfold clearPrimFn at hprim'
          by_cases hcl : (r.project_id == pid &&
              (some rid).all (fun e => r.id != e) && r.is_primary) = true
          · rw [if_pos hcl] at hprim'
            exact Bool.false_ne_true hprim'
          · rw [if_neg hcl] at hprim'
            simp only [Option.all_some, Bool.and_eq_true, beq_iff_eq, bne_iff_ne] at hcl
            exact hcl ⟨⟨hcon.1.trans hq, hrid⟩, hprim'⟩
        rw [hfalse]
        symm
        rw [beq_eq_false_iff_ne]
        exact hrid
      · rw [if_neg hq]
        by_cases hpidr : r.project_id = pid
        · have h1 : isPrimaryFor q (clearPrimFn pid (some rid) r) = false := by
            rw [Bool.eq_false_iff]
            intro hcon
            rw [isPrimaryFor_iff, clearPrimFn_project_id] at hcon
            exact hq (hpidr.symm.trans hcon.1).symm
          have h2 : isPrimaryFor q r = false := by
            rw [Bool.eq_false_iff]
            intro hcon
            rw [isPrimaryFor_iff] at hcon
            exact hq (hpidr.symm.trans hcon.1).symm
          rw [h1, h2]
        · have : clearPrimFn pid (some rid) r = r := by
            unfold clearPrimFn
            rw [if_neg]
            simp only [Bool.and_eq_true, beq_iff_eq]
            intro hcon
            exact hpidr hcon.1.1
          rw [this]
  intro r' hr'
  rcases List.mem_map.mp hr' with ⟨r0, hr0, hfe⟩
  have hq' : r'.project_id = r0.project_id := by
    rw [← hfe, Function.comp_apply, updateRowFn_project_id, clearPrimFn_project_id]
  rw [List.countP_map]
  by_cases hq : r'.project_id = pid
  · have hcong : List.countP (isPrimaryFor r'.project_id ∘
        (updateRowFn rid n p rt true ∘ clearPrimFn pid (some rid))) l
        = List.countP (fun x : ProjectRepoRow => x.id == existing.id) l := by
      apply List.countP_congr
      intro x hx
      rw [Function.comp_apply, Function.comp_apply, hpoint r'.project_id x hx,
        if_pos hq, ← hid]
    rw [hcong]
    exact countP_id_eq_one hids hmem
  · have hcong : List.countP (isPrimaryFor r'.project_id ∘
        (updateRowFn rid n p rt true ∘ clearPrimFn pid (some rid))) l
        = List.countP (isPrimaryFor r'.project_id) l := by
      apply List.countP_congr
      intro x hx
      rw [Function.comp_apply, Function.comp_apply, hpoint r'.project_id x hx,
        if_neg hq]
    rw [hcong, hq']
    exact hinv r0 hr0

/-- `update` keeping `is_primary = false` after the demote guard passed:
counts are unchanged (if the row was primary, the guard guarantees another
primary exists, contradicting uniqueness, so that case is vacuous). -/
theorem primaryUnique_update_demote (l : List ProjectRepoRow)
    (pid rid n p rt : String) (hids : (l.map (·.id)).Nodup)
    {existing : ProjectRepoRow} (hmem : existing ∈ l) (hid : existing.id = rid)
    (hproj : existing.project_id = pid) (hinv : PrimaryUnique l)
    (hguard : existing.is_primary = true →
      ∃ r2 ∈ l, r2.project_id = pid ∧ r2.id ≠ rid ∧ r2.is_primary = true) :
    PrimaryUnique (l.map (updateRowFn rid n p rt false)) := by
  by_cases hep : existing.is_primary = true
  · obtain ⟨r2, hr2, hr2p, hr2id, hr2prim⟩ := hguard hep
    have hne : existing ≠ r2 := fun he => hr2id (he ▸ hid)
    have h2 : 2 ≤ l.countP (isPrimaryFor pid) := by
      apply two_le_countP hmem hr2 hne
      · rw [isPrimaryFor_iff]; exact ⟨hproj, hep⟩
      · rw [isPrimaryFor_iff]; exact ⟨hr2p, hr2prim⟩
    have h1 := hinv existing hmem
    rw [hproj] at h1
    omega
  · have hep' : existing.is_primary = false := by
      rwa [Bool.not_eq_true] at hep
    have hpoint : ∀ q : String, ∀ r ∈ l,
        isPrimaryFor q (updateRowFn rid n p rt false r) = isPrimaryFor q r := by
      intro q r hr
      by_cases hrid : r.id = rid
      · have hre : r = existing := eq_of_mem_id hids hr hmem (hrid.trans hid.symm)
        have hu : updateRowFn rid n p rt false r
            = setUpdatedFields n p rt false r := by
          unfold updateRowFn; rw [if_pos]; simpa using hrid
        rw [hu]
        have h1 : isPrimaryFor q (setUpdatedFields n p rt false r) = false := by
          simp [isPrimaryFor, setUpdatedFields]
        have h2 : isPrimaryFor q r = false := by
          rw [Bool.eq_false_iff]
          intro hcon
          rw [isPrimaryFor_iff] at hcon
          rw [hre, hep'] at hcon
          exact Bool.false_ne_true hcon.2
        rw [h1, h2]
      · rw [updateRowFn_of_ne rid n p rt false hrid]
    intro r' hr'
    rcases List.mem_map.mp hr' with ⟨r0, hr0, hfe⟩
    have hq' : r'.project_id = r0.project_id := by
      rw [← hfe, updateRowFn_project_id]
    rw [List.countP_map]
    have hcong : List.countP (isPrimaryFor r'.project_id ∘
        updateRowFn rid n p rt false) l
        = List.countP (isPrimaryFor r'.project_id) l := by
      apply List.countP_congr
      intro x hx
      rw [Function.comp_apply, hpoint r'.project_id x hx]
    rw [hcong, hq']
    exact hinv r0 hr0

theorem foldl_better_mem :
    ∀ (rest : List ProjectRepoRow) (r : ProjectRepoRow),
      rest.foldl betterCandidate r ∈ r :: rest
  | [], r => by simp
  | y :: t, r => by
    have hbc : betterCandidate r y = r ∨ betterCandidate r y = y := by
      unfold betterCandidate
      split
      · exact Or.inr rfl
      split
      · exact Or.inr rfl
      · exact Or.inl rfl
    have := foldl_better_mem t (betterCandidate r y)
    rcases List.mem_cons.mp this with he | ht
    · rw [List.foldl_cons, he]
      rcases hbc with h | h <;> rw [h] <;> simp
    · rw [List.foldl_cons]
      simp [ht]

theorem pickReplacement_mem {rows : List ProjectRepoRow} {cand : ProjectRepoRow}
    (h : pickReplacement rows = some cand) : cand ∈ rows := by
  cases rows with
  | nil => cases h
  | cons r rest =>
    simp only [pickReplacement, Option.some.injEq] at h
    rw [← h]
    exact foldl_better_mem rest r

/-- `delete` of the primary row with a promoted replacement keeps exactly
one primary per project. -/
theorem primaryUnique_delete_promote (l : List ProjectRepoRow)
    (pid rid : String) (hids : (l.map (·.id)).Nodup)
    {existing cand : ProjectRepoRow}
    (hmem : existing ∈ l) (hid : existing.id = rid)
    (hproj : existing.project_id = pid) (hprim : existing.is_primary = true)
    (hcand : cand ∈ l) (hcproj : cand.project_id = pid) (hcid : cand.id ≠ rid)
    (hinv : PrimaryUnique l) :
    PrimaryUnique ((l.filter (fun r => r.id != rid)).map (promoteFn cand.id)) := by
  have hfilter_sub : ∀ x ∈ l.filter (fun r => r.id != rid), x ∈ l := by
    intro x hx; exact (List.mem_filter.mp hx).1
  have hfids : ((l.filter (fun r => r.id != rid)).map (·.id)).Nodup :=
    ((List.filter_sublist l).map (·.id)).nodup hids
  have hcand_f : cand ∈ l.filter (fun r => r.id != rid) := by
    rw [List.mem_filter]
    exact ⟨hcand, by simpa using hcid⟩
  have hpoint : ∀ q : String, ∀ r ∈ l.filter (fun x => x.id != rid),
      isPrimaryFor q (promoteFn cand.id r)
        = (if q = pid then r.id == cand.id else isPrimaryFor q r) := by
    intro q r hrf
    have hr : r ∈ l := hfilter_sub r hrf
    have hrid : r.id ≠ rid := by
      have := (List.mem_filter.mp hrf).2
      simpa using this
    by_cases hrc : r.id = cand.id
    · have hre : r = cand := eq_of_mem_id hids hr hcand hrc
      have hp : promoteFn cand.id r = { r with is_primary := true } := by
        unfold promoteFn; rw [if_pos]; simpa using hrc
      rw [hp]
      have h1 : isPrimaryFor q { r with is_primary := true }
          = (r.project_id == q) := by
        simp [isPrimaryFor]
      rw [h1]
      by_cases hq : q = pid
      · rw [if_pos hq]
        have hpq : r.project_id = q := by rw [hre, hcproj, hq]
        simp [hpq, hrc]
      · rw [if_neg hq]
        have ha : (r.project_id == q) = false := by
          rw [beq_eq_false_iff_ne]
          rw [hre, hcproj]
          exact fun hc => hq hc.symm
        have hb : isPrimaryFor q r = false := by
          rw [Bool.eq_false_iff]
          intro hcon
          rw [isPrimaryFor_iff] at hcon
          rw [hre, hcproj] at hcon
          exact hq hcon.1.symm
        rw [ha, hb]
    · have hp : promoteFn cand.id r = r := by
        unfold promoteFn; rw [if_neg]; simpa using hrc
      rw [hp]
      by_cases hq : q = pid
      · rw [if_pos hq]
        have hb : isPrimaryFor q r = false := by
          rw [Bool.eq_false_iff]
          intro hcon
          rw [isPrimaryFor_iff] at hcon
          have hne : existing ≠ r := fun he => hrid (he ▸ hid)
          have h2 : 2 ≤ l.countP (isPrimaryFor pid) := by
            apply two_le_countP hmem hr hne
            · rw [isPrimaryFor_iff]; exact ⟨hproj, hprim⟩
            · rw [isPrimaryFor_iff]; exact ⟨hcon.1.trans hq, hcon.2⟩
          have h1 := hinv existing hmem
          rw [hproj] at h1
          omega
        rw [hb]
        symm
        rw [beq_eq_false_iff_ne]
        exact hrc
      · rw [if_neg hq]
  intro r' hr'
  rcases List.mem_map.mp hr' with ⟨r0, hr0, hfe⟩
  have hq' : r'.project_id = r0.project_id := by
    rw [← hfe, promoteFn_project_id]
  rw [List.countP_map]
  by_cases hq : r'.project_id = pid
  · have hcong : List.countP (isPrimaryFor r'.project_id ∘ promoteFn cand.id)
        (l.filter (fun r => r.id != rid))
        = List.countP (fun x : ProjectRepoRow => x.id == cand.id)
          (l.filter (fun r => r.id != rid)) := by
      apply List.countP_congr
      intro x hx
      rw [Function.comp_apply, hpoint r'.project_id x hx, if_pos hq]
    rw [hcong]
    exact countP_id_eq_one hfids hcand_f
  · have hcong : List.countP (isPrimaryFor r'.project_id ∘ promoteFn cand.id)
        (l.filter (fun r => r.id != rid))
        = List.countP (isPrimaryFor r'.project_id)
          (l.filter (fun r => r.id != rid)) := by
      apply List.countP_congr
      intro x hx
      rw [Function.comp_apply, hpoint r'.project_id x hx, if_neg hq]
    rw [hcong, List.countP_filter]
    have hcong2 : List.countP
        (fun a : ProjectRepoRow => isPrimaryFor r'.project_id a && (a.id != rid)) l
        = List.countP (isPrimaryFor r'.project_id) l := by
      apply List.countP_congr
      intro x hx
      by_cases hxr : x.id = rid
      · have hxe : x = existing := eq_of_mem_id hids hx hmem (hxr.trans hid.symm)
        have hfalse : isPrimaryFor r'.project_id x = false := by
          rw [Bool.eq_false_iff]
          intro hcon
          rw [isPrimaryFor_iff] at hcon
          rw [hxe, hproj] at hcon
          exact hq hcon.1.symm
        simp [hfalse]
      · simp [hxr]
    rw [hcong2, hq']
    exact hinv r0 (hfilter_sub r0 hr0)

/-- `delete` of a non-primary row: the surviving rows carry exactly the same
primary counts. -/
theorem primaryUnique_delete_nonprimary (l : List ProjectRepoRow)
    (pid rid : String) (hids : (l.map (·.id)).Nodup)
    {existing : ProjectRepoRow}
    (hmem : existing ∈ l) (hid : existing.id = rid)
    (hproj : existing.project_id = pid) (hprim : existing.is_primary = false)
    (hinv : PrimaryUnique l) :
    PrimaryUnique (l.filter (fun r => r.id != rid)) := by
  intro r' hr'
  have hr'l : r' ∈ l := (List.mem_filter.mp hr').1
  rw [List.countP_filter]
  have hcong : List.countP
      (fun a : ProjectRepoRow => isPrimaryFor r'.project_id a && (a.id != rid)) l
      = List.countP (isPrimaryFor r'.project_id) l := by
    apply List.countP_congr
    intro x hx
    by_cases hxr : x.id = rid
    · have hxe : x = existing := eq_of_mem_id hids hx hmem (hxr.trans hid.symm)
      have hfalse : isPrimaryFor r'.project_id x = false := by
        rw [Bool.eq_false_iff]
        intro hcon
        rw [isPrimaryFor_iff] at hcon
        rw [hxe, hprim] at hcon
        exact Bool.false_ne_true hcon.2
      simp [hfalse]
    · simp [hxr]
  rw [hcong]
  exact hinv r' hr'l

theorem create_preserves_primary_unique
    {db : Db} {pid : String} {data : CreateProjectRepository} {newId : String}
    {now : Int} {repo : ProjectRepoRow} {db' : Db}
    (hc : ProjectRepository_create db pid data newId now = .ok (repo, db'))
    (hinv : ProjectPrimaryInvariant db)
    (hside : data.is_primary = true ∨
      ∃ r ∈ db.project_repositories, r.project_id = pid) :
    ProjectPrimaryInvariant db' := by
  simp only [ProjectRepository_create] at hc
  split at hc
  · cases hc
  split at hc
  · cases hc
  split at hc
  · cases hc
  split at hc
  · cases hc
  injection hc with h
  injection h with hrepo hdb'
  subst hdb'
  unfold ProjectPrimaryInvariant
  rw [sync_repos, ensure_repos]
  dsimp only
  by_cases hp : data.is_primary = true
  · simp only [hp, if_true]
    rw [clearAttempt_repos, clearProject_repos]
    exact primaryUnique_clear_insert db.project_repositories pid _ rfl rfl hinv
  · have hp' : data.is_primary = false := by rwa [Bool.not_eq_true] at hp
    simp only [hp', Bool.false_eq_true, if_false]
    rcases hside with hps | hex
    · exact absurd hps (by simp [hp'])
    · exact primaryUnique_insert_nonprimary db.project_repositories pid _ rfl
        rfl hinv hex

theorem update_preserves_primary_unique
    {db : Db} {pid rid : String} {data : UpdateProjectRepository}
    {repo : ProjectRepoRow} {db' : Db}
    (hc : ProjectRepository_update db pid rid data = .ok (repo, db'))
    (hinv : ProjectPrimaryInvariant db)
    (hids : (db.project_repositories.map (·.id)).Nodup) :
    ProjectPrimaryInvariant db' := by
  simp only [ProjectRepository_update] at hc
  split at hc
  · cases hc
  case _ existing hfind =>
  split at hc
  · cases hc
  case _ hproj' =>
  have hproj : existing.project_id = pid := not_not.mp hproj'
  have hmem : existing ∈ db.project_repositories := List.mem_of_find?_eq_some hfind
  have hexid : existing.id = rid := by
    have := List.find?_some hfind
    rwa [beq_iff_eq] at this
  split at hc
  · cases hc
  case _ resolvedName hname =>
  split at hc
  · cases hc
  case _ resolvedPath hpath =>
  split at hc
  · cases hc
  split at hc
  · cases hc
  split at hc
  · cases hc
  case _ h1 h2 hguard =>
  injection hc with h
  injection h with hrepo hdb'
  subst hdb'
  unfold ProjectPrimaryInvariant
  rw [sync_repos, ensure_repos]
  dsimp only
  by_cases hrp : data.is_primary.getD existing.is_primary = true
  · simp only [hrp, if_true]
    rw [clearAttempt_repos, clearProject_repos]
    exact primaryUnique_update_promote db.project_repositories pid rid _ _ _
      hids hmem hexid hproj hinv
  · have hrp' : data.is_primary.getD existing.is_primary = false := by
      rwa [Bool.not_eq_true] at hrp
    simp only [hrp', Bool.false_eq_true, if_false]
    apply primaryUnique_update_demote db.project_repositories pid rid _ _ _
      hids hmem hexid hproj hinv
    intro hep
    have hany : (db.project_repositories.any (fun r =>
        r.project_id == pid && r.id != rid && r.is_primary)) = true := by
      by_contra hcon
      rw [Bool.not_eq_true] at hcon
      exact hguard ⟨hrp', hep, hcon⟩
    obtain ⟨r2, hr2, hr2p⟩ := List.any_eq_true.mp hany
    simp only [Bool.and_eq_true, beq_iff_eq, bne_iff_ne] at hr2p
    exact ⟨r2, hr2, hr2p.1.1, hr2p.1.2, hr2p.2⟩

theorem delete_preserves_primary_unique
    {db : Db} {pid rid : String} {db' : Db}
    (hc : ProjectRepository_delete db pid rid = .ok db')
    (hinv : ProjectPrimaryInvariant db)
    (hids : (db.project_repositories.map (·.id)).Nodup) :
    ProjectPrimaryInvariant db' := by
  simp only [ProjectRepository_delete] at hc
  split at hc
  · cases hc
  case _ repository hfind =>
  split at hc
  · cases hc
  case _ hproj' =>
  have hproj : repository.project_id = pid := not_not.mp hproj'
  have hmem : repository ∈ db.project_repositories := List.mem_of_find?_eq_some hfind
  have hexid : repository.id = rid := by
    have := List.find?_some hfind
    rwa [beq_iff_eq] at this
  split at hc
  case _ e heq => cases hc
  case _ replacement heq =>
  injection hc with hdb'
  subst hdb'
  unfold ProjectPrimaryInvariant
  rw [sync_repos]
  by_cases hp : repository.is_primary = true
  · simp only [hp, if_true] at heq
    cases hpick : pickReplacement (db.project_repositories.filter (fun r =>
        r.project_id == pid && r.id != rid)) with
    | none => rw [hpick] at heq; cases heq
    | some cand =>
      rw [hpick] at heq
      injection heq with hrep
      subst hrep
      dsimp only
      have hcand := pickReplacement_mem hpick
      rw [List.mem_filter] at hcand
      have hcand2 := hcand.2
      simp only [Bool.and_eq_true, beq_iff_eq, bne_iff_ne] at hcand2
      exact primaryUnique_delete_promote db.project_repositories pid rid hids
        hmem hexid hproj hp hcand.1 hcand2.1 hcand2.2 hinv
  · have hp' : repository.is_primary = false := by rwa [Bool.not_eq_true] at hp
    simp only [hp', Bool.false_eq_true, if_false] at heq
    injection heq with hrep
    subst hrep
    dsimp only
    exact primaryUnique_delete_nonprimary db.project_repositories pid rid hids
      hmem hexid hproj hp' hinv

/-- An update that demotes the project's last primary fails with
`PrimaryRequired` (and, the operation being transactional, leaves the state
unchanged). -/
theorem update_demote_last_primary
    {db : Db} {pid rid : String} {r : ProjectRepoRow}
    (hids : (db.project_repositories.map (·.id)).Nodup)
    (hmem : r ∈ db.project_repositories) (hid : r.id = rid)
    (hproj : r.project_id = pid) (hprim : r.is_primary = true)
    (hnone : ∀ r2 ∈ db.project_repositories,
      r2.project_id = pid → r2.id ≠ rid → r2.is_primary = false) :
    ProjectRepository_update db pid rid
      { name := none, git_repo_path := none, root_path := none,
        is_primary := some false } = .error .primaryRequired := by
  have hfind : db.project_repositories.find? (fun x => x.id == rid) = some r := by
    rw [← hid]
    exact find?_id_of_nodup hids hmem
  have hany : (db.project_repositories.any (fun x =>
      x.project_id == pid && x.id != rid && x.is_primary)) = false := by
    rw [List.any_eq_false]
    intro x hx hcon
    simp only [Bool.and_eq_true, beq_iff_eq, bne_iff_ne] at hcon
    have := hnone x hx hcon.1.1 hcon.1.2
    rw [this] at hcon
    exact Bool.false_ne_true hcon.2
  simp only [ProjectRepository_update, hfind]
  rw [if_neg (fun h => h hproj)]
  dsimp only [resolveField]
  rw [if_neg (fun h : (strLower r.name ≠ strLower r.name ∧ _) => h.1 rfl)]
  rw [if_neg (fun h : ((r.git_repo_path ≠ r.git_repo_path ∨
      r.root_path ≠ r.root_path) ∧ _) => by
    rcases h.1 with h' | h' <;> exact h' rfl)]
  rw [if_pos ⟨rfl, hprim, hany⟩]

instance (db : Db) : Decidable (ProjectPrimaryInvariant db) := by
  unfold ProjectPrimaryInvariant PrimaryUnique
  exact inferInstance

instance (db : Db) (pid : String) : Decidable (MirroredPrimary db pid) := by
  unfold MirroredPrimary
  exact inferInstance

/-- C1 counterexample scenario: a project with no repository rows, and a
create request with `is_primary = false`. -/
def c1db0 : Db :=
  { projects := [{ id := "p", git_repo_path := "/tmp/p" }],
    project_repositories := [], tasks := [], task_attempts := [],
    task_attempt_repositories := [] }

def c1data : CreateProjectRepository :=
  { name := "alpha", git_repo_path := "/tmp/p", root_path := none,
    is_primary := false }

def c1PostRepo : ProjectRepoRow :=
  { id := "r1", project_id := "p", name := "alpha", git_repo_path := "/tmp/p",
    root_path := "", is_primary := false, created_at := 0 }

def c1PostDb : Db :=
  match ProjectRepository_create c1db0 "p" c1data "r1" 0 with
  | .ok (_, d) => d
  | .error _ => c1db0

/-- C1 counterexample: `ProjectRepository::create` with `is_primary = false`
on a project holding no repository rows succeeds and leaves the project with
one repository row and zero primaries, so the invariant "every project with
at least one repository row has exactly one primary" is not preserved by
every successful create. -/
theorem c1_counterexample :
    ProjectPrimaryInvariant c1db0 ∧
    ProjectRepository_create c1db0 "p" c1data "r1" 0 = .ok (c1PostRepo, c1PostDb) ∧
    c1PostDb.project_repositories ≠ [] ∧
    ¬ ProjectPrimaryInvariant c1PostDb := by
  refine ⟨by decide, rfl, by decide, by decide⟩

/-- C1 (amended): given the primary-uniqueness invariant and the primary-key
constraint on repository ids, every successful `update` and `delete`
preserves the invariant, a successful `create` preserves it provided the new
repository is created primary or the project already has a repository row
(the counterexample shows the remaining case breaks it), and an update that
would demote the last remaining primary fails with `PrimaryRequired`
(changing nothing, since the operation is transactional). -/
theorem c1_primary_uniqueness (db : Db) (pid : String)
    (hinv : ProjectPrimaryInvariant db)
    (hids : (db.project_repositories.map (·.id)).Nodup) :
    (∀ (data : CreateProjectRepository) (newId : String) (now : Int)
        (repo : ProjectRepoRow) (db' : Db),
      ProjectRepository_create db pid data newId now = .ok (repo, db') →
      (data.is_primary = true ∨
        ∃ r ∈ db.project_repositories, r.project_id = pid) →
      ProjectPrimaryInvariant db') ∧
    (∀ (rid : String) (data : UpdateProjectRepository) (repo : ProjectRepoRow)
        (db' : Db),
      ProjectRepository_update db pid rid data = .ok (repo, db') →
      ProjectPrimaryInvariant db') ∧
    (∀ (rid : String) (db' : Db),
      ProjectRepository_delete db pid rid = .ok db' →
      ProjectPrimaryInvariant db') ∧
    (∀ (rid : String) (r : ProjectRepoRow),
      r ∈ db.project_repositories → r.id = rid → r.project_id = pid →
      r.is_primary = true →
      (∀ r2 ∈ db.project_repositories, r2.project_id = pid → r2.id ≠ rid →
        r2.is_primary = false) →
      ProjectRepository_update db pid rid
        { name := none, git_repo_path := none, root_path := none,
          is_primary := some false } = .error .primaryRequired) :=
  ⟨fun _ _ _ _ _ hc hside => create_preserves_primary_unique hc hinv hside,
   fun _ _ _ _ hc => update_preserves_primary_unique hc hinv hids,
   fun _ _ hc => delete_preserves_primary_unique hc hinv hids,
   fun _ r hmem hid hproj hprim hnone =>
     update_demote_last_primary hids hmem hid hproj hprim hnone⟩

/-- Shared concrete scenario: one project, one primary repository, one task,
one attempt with its membership row. -/
def exProject : ProjectRow := { id := "p", git_repo_path := "/tmp/p" }

def exRepoRow : ProjectRepoRow :=
  { id := "r1", project_id := "p", name := "Primary", git_repo_path := "/tmp/p",
    root_path := "", is_primary := true, created_at := 0 }

def exTask : TaskRow := { id := "t", project_id := "p" }

def exAttempt : TaskAttemptRow := { id := "a", task_id := "t" }

def exAttemptRepo : TaskAttemptRepoRow :=
  { id := "a#r1", task_attempt_id := "a", project_repository_id := "r1",
    is_primary := true }

def exDb : Db :=
  { projects := [exProject], project_repositories := [exRepoRow],
    tasks := [exTask], task_attempts := [exAttempt],
    task_attempt_repositories := [exAttemptRepo] }

def exCreateData : CreateProjectRepository :=
  { name := "Docs", git_repo_path := "/tmp/docs", root_path := none,
    is_primary := true }

def exCreateRepo : ProjectRepoRow :=
  { id := "r2", project_id := "p", name := "Docs", git_repo_path := "/tmp/docs",
    root_path := "", is_primary := true, created_at := 1 }

def exCreatePost : Db :=
  match ProjectRepository_create exDb "p" exCreateData "r2" 1 with
  | .ok (_, d) => d
  | .error _ => exDb

/-- Witness for C1 at a concrete store: promoting create preserves the
invariant, and demoting the only primary is rejected. -/
theorem c1_primary_uniqueness_witness :
    ProjectPrimaryInvariant exCreatePost ∧
    ProjectRepository_update exDb "p" "r1"
      { name := none, git_repo_path := none, root_path := none,
        is_primary := some false } = .error .primaryRequired :=
  ⟨(c1_primary_uniqueness exDb "p" (by decide) (by decide)).1 exCreateData "r2" 1
      exCreateRepo exCreatePost rfl (Or.inl rfl),
   (c1_primary_uniqueness exDb "p" (by decide) (by decide)).2.2.2 "r1" exRepoRow
      (by decide) rfl rfl rfl (by decide)⟩

/-- Witness for C2: after the concrete promoting create, the attempt's
membership rows mirror the project-repository primary flags. -/
theorem c2_mirrored_primary_witness : MirroredPrimary exCreatePost "p" :=
  (c2_mirrored_primary exDb "p").1 exCreateData "r2" 1 exCreateRepo exCreatePost
    rfl (by decide)

/-! ## crates/db/src/models/task_attempt.rs : `TaskAttempt::create`
(lines 646-836) -/

inductive TAError
  | taskNotFound
  | validation (msg : String)
  | database
deriving DecidableEq

/-- One entry of the caller-provided `repositories` selection. -/
structure CreateTaskAttemptRepo where
  project_repository_id : String
  is_primary : Bool
deriving DecidableEq

/-- `CreateTaskAttempt` (executor and images omitted: no claim consults
them). -/
structure CreateTaskAttempt where
  base_branch : String
  repositories : Option (List CreateTaskAttemptRepo)
deriving DecidableEq

/-- The local `RepoRow { id, is_primary }` of `TaskAttempt::create`. -/
structure SelRepoRow where
  id : String
  is_primary : Bool
deriving DecidableEq

/-- The `for repo in selection` loop (lines 733-767): rejects ids not
belonging to the project and duplicated ids, counts explicit primaries, and
accumulates the rows in order. -/
def selLoop (projectRepoIds : List String) :
    List CreateTaskAttemptRepo → List String → Nat → List SelRepoRow →
    Except TAError (List SelRepoRow × Nat)
  | [], _, cnt, rows => .ok (rows, cnt)
  | repo :: rest, seen, cnt, rows =>
    if ¬ (projectRepoIds.contains repo.project_repository_id) then
      .error (.validation ("Repository " ++ repo.project_repository_id ++
        " is not configured for this project"))
    else if seen.contains repo.project_repository_id then
      .error (.validation "Duplicate repository selection")
    else
      selLoop projectRepoIds rest (repo.project_repository_id :: seen)
        (if repo.is_primary then cnt + 1 else cnt)
        (rows ++ [{ id := repo.project_repository_id,
                    is_primary := repo.is_primary }])

/-- `rows.iter_mut().find(|row| row.id == primary_id)` then set (line 758):
promote the first row with the given id. -/
def setPrimaryFirst : List SelRepoRow → String → List SelRepoRow
  | [], _ => []
  | r :: t, pidRepo =>
    if r.id == pidRepo then { r with is_primary := true } :: t
    else r :: setPrimaryFirst t pidRepo

/-- `rows[0].is_primary = true` for a singleton selection (lines 760, 763). -/
def setHeadPrimary : List SelRepoRow → List SelRepoRow
  | [] => []
  | r :: t => { r with is_primary := true } :: t

/-- Resolution of the default primary when no selection entry is explicitly
primary (lines 756-765). -/
def applyDefaultPrimary (projectPrimaryId : Option String)
    (rows : List SelRepoRow) : List SelRepoRow :=
  match projectPrimaryId with
  | some p =>
    if rows.any (fun r => r.id == p) then setPrimaryFirst rows p
    else if rows.length = 1 then setHeadPrimary rows else rows
  | none => if rows.length = 1 then setHeadPrimary rows else rows

/-- Validation of the caller-provided selection against the project's
repositories (lines 733-788): an empty or absent selection falls back to
all project repositories. -/
def selectRepositories (projectRepos : List SelRepoRow)
    (selection : Option (List CreateTaskAttemptRepo)) :
    Except TAError (List SelRepoRow) :=
  let projectPrimaryId := (projectRepos.find? (fun r => r.is_primary)).map (·.id)
  let repoIds := projectRepos.map (·.id)
  match selection with
  | none => .ok projectRepos
  | some sel =>
    if sel.isEmpty then .ok projectRepos
    else
      match selLoop repoIds sel [] 0 [] with
      | .error e => .error e
      | .ok (rows, explicitCnt) =>
        if rows.isEmpty then
          .error (.validation "At least one repository must be selected")
        else if 1 < explicitCnt then
          .error (.validation "Only one repository may be marked as primary")
        else
          let rows2 := if explicitCnt = 0
            then applyDefaultPrimary projectPrimaryId rows else rows
          if rows2.countP (fun r => r.is_primary) ≠ 1 then
            .error (.validation "One repository must be marked as primary")
          else .ok rows2

/-- `TaskAttempt::create` (`task_attempt.rs` lines 646-836).  `attemptId`
and `seedRepoId` stand for the generated UUIDs, `now` for `created_at` of
the auto-seeded repository row.  If the project has no repository rows, a
primary "Primary" repository pointing at the project's `git_repo_path` is
auto-seeded (lines 704-727).  The final two checks (lines 800-815) run on
every path.  Errors roll the transaction back: the caller keeps the input
state. -/
def TaskAttempt_create (db : Db) (data : CreateTaskAttempt)
    (taskId attemptId seedRepoId : String) (now : Int) :
    Except TAError (TaskAttemptRow × Db) :=
  match db.tasks.find? (fun t => t.id == taskId) with
  | none => .error .taskNotFound
  | some task =>
    let attempt : TaskAttemptRow := { id := attemptId, task_id := taskId }
    let db1 := { db with task_attempts := db.task_attempts ++ [attempt] }
    let existingRepos := (db1.project_repositories.filter (fun r =>
      r.project_id == task.project_id)).map (fun r =>
        ({ id := r.id, is_primary := r.is_primary } : SelRepoRow))
    let seededResult : Except TAError (List SelRepoRow × Db) :=
      if existingRepos.isEmpty then
        match db1.projects.find? (fun p => p.id == task.project_id) with
        | none => .error .database
        | some project =>
          let seeded : ProjectRepoRow :=
            { id := seedRepoId, project_id := task.project_id,
              name := "Primary", git_repo_path := project.git_repo_path,
              root_path := "", is_primary := true, created_at := now }
          .ok ([{ id := seedRepoId, is_primary := true }],
            { db1 with project_repositories :=
                db1.project_repositories ++ [seeded] })
      else .ok (existingRepos, db1)
    match seededResult with
    | .error e => .error e
    | .ok (projectRepos, db2) =>
      match selectRepositories projectRepos data.repositories with
      | .error e => .error e
      | .ok selected =>
        if selected.isEmpty then
          .error (.validation "At least one repository must be selected")
        else if selected.countP (fun r => r.is_primary) ≠ 1 then
          .error (.validation "One repository must be marked as primary")
        else
          let newRows := selected.map (fun r =>
            ({ id := attemptId ++ "#" ++ r.id, task_attempt_id := attemptId,
               project_repository_id := r.id,
               is_primary := r.is_primary } : TaskAttemptRepoRow))
          .ok (attempt, { db2 with task_attempt_repositories :=
              db2.task_attempt_repositories ++ newRows })

/-- An inconsistent non-empty selection: a foreign id, a duplicate id, more
than one explicit primary, or (with no explicit primary) several entries
none of which is the project's primary. -/
def SelectionInconsistent (projectRepos : List SelRepoRow)
    (sel : List CreateTaskAttemptRepo) : Prop :=
  (∃ s ∈ sel, s.project_repository_id ∉ projectRepos.map (·.id)) ∨
  ¬ (sel.map (·.project_repository_id)).Nodup ∨
  1 < sel.countP (fun s => s.is_primary) ∨
  (sel.countP (fun s => s.is_primary) = 0 ∧ 1 < sel.length ∧
    ∀ p ∈ projectRepos, p.is_primary = true →
      p.id ∉ sel.map (·.project_repository_id))

/-- The row a selection entry contributes (`rows.push(RepoRow { .. })`). -/
def selToRow (s : CreateTaskAttemptRepo) : SelRepoRow :=
  { id := s.project_repository_id, is_primary := s.is_primary }

theorem selLoop_error (repoIds : List String) :
    ∀ (sel : List CreateTaskAttemptRepo) (seen : List String) (cnt : Nat)
      (rows : List SelRepoRow),
      ((∃ s ∈ sel, s.project_repository_id ∉ repoIds) ∨
        ¬ (sel.map (·.project_repository_id)).Nodup ∨
        (∃ s ∈ sel, s.project_repository_id ∈ seen)) →
      ∃ msg, selLoop repoIds sel seen cnt rows = .error (.validation msg)
  | [], seen, cnt, rows, hbad => by
    rcases hbad with ⟨s, hs, _⟩ | hnd | ⟨s, hs, _⟩
    · cases hs
    · exact absurd List.nodup_nil hnd
    · cases hs
  | s :: rest, seen, cnt, rows, hbad => by
    by_cases hin : s.project_repository_id ∈ repoIds
    case neg =>
      refine ⟨"Repository " ++ s.project_repository_id ++
        " is not configured for this project", ?_⟩
      simp only [selLoop]
      rw [if_pos (fun hcon => hin (List.elem_iff.mp hcon))]
    case pos =>
      have hc1 : ¬¬ (repoIds.contains s.project_repository_id) = true := by
          simp only [not_not]
          exact List.elem_eq_true_of_mem hin
      by_cases hseen : s.project_repository_id ∈ seen
      · refine ⟨"Duplicate repository selection", ?_⟩
        simp only [selLoop]
        rw [if_neg hc1, if_pos (List.elem_eq_true_of_mem hseen)]
      · have hc2 : ¬ (seen.contains s.project_repository_id) = true := by
          intro hcon
          exact hseen (List.elem_iff.mp hcon)
        have hstep : selLoop repoIds (s :: rest) seen cnt rows
            = selLoop repoIds rest (s.project_repository_id :: seen)
              (if s.is_primary then cnt + 1 else cnt)
              (rows ++ [{ id := s.project_repository_id,
                          is_primary := s.is_primary }]) := by
          simp only [selLoop]
          rw [if_neg hc1, if_neg hc2]
        rw [hstep]
        apply selLoop_error repoIds rest
        rcases hbad with ⟨s', hs', hfor⟩ | hnd | ⟨s', hs', hsn⟩
        · rcases List.mem_cons.mp hs' with he | ht
          · exact absurd hin (he ▸ hfor)
          · exact Or.inl ⟨s', ht, hfor⟩
        · simp only [List.map_cons, List.nodup_cons, not_and] at hnd
          by_cases hdup : s.project_repository_id ∈ rest.map (·.project_repository_id)
          · rcases List.mem_map.mp hdup with ⟨s', hs', hide⟩
            exact Or.inr (Or.inr ⟨s', hs', by rw [hide]; exact List.mem_cons_self _ _⟩)
          · exact Or.inr (Or.inl (hnd hdup))
        · rcases List.mem_cons.mp hs' with he | ht
          · exact absurd (he ▸ hsn) hseen
          · exact Or.inr (Or.inr ⟨s', ht, List.mem_cons_of_mem _ hsn⟩)

theorem selLoop_ok (repoIds : List String) :
    ∀ (sel : List CreateTaskAttemptRepo) (seen : List String) (cnt : Nat)
      (rows : List SelRepoRow),
      (∀ s ∈ sel, s.project_repository_id ∈ repoIds) →
      (sel.map (·.project_repository_id)).Nodup →
      (∀ s ∈ sel, s.project_repository_id ∉ seen) →
      selLoop repoIds sel seen cnt rows
        = .ok (rows ++ sel.map selToRow,
            cnt + sel.countP (fun s => s.is_primary))
  | [], seen, cnt, rows, _, _, _ => by simp [selLoop]
  | s :: rest, seen, cnt, rows, hall, hnd, hns => by
    have hin := hall s (List.mem_cons_self _ _)
    have hc1 : ¬¬ (repoIds.contains s.project_repository_id) = true := by
      simp only [not_not]
      exact List.elem_eq_true_of_mem hin
    have hc2 : ¬ (seen.contains s.project_repository_id) = true := by
      intro hcon
      exact hns s (List.mem_cons_self _ _) (List.elem_iff.mp hcon)
    simp only [selLoop]
    rw [if_neg hc1, if_neg hc2]
    simp only [List.map_cons, List.nodup_cons] at hnd
    rw [selLoop_ok repoIds rest _ _ _ (fun x hx => hall x (List.mem_cons_of_mem _ hx))
      hnd.2 ?_]
    · simp only [List.map_cons, List.countP_cons, List.append_assoc,
        List.singleton_append, selToRow]
      have hn : (if s.is_primary = true then cnt + 1 else cnt)
          + List.countP (fun x => x.is_primary) rest
          = cnt + (List.countP (fun x => x.is_primary) rest
            + if s.is_primary = true then 1 else 0) := by
        by_cases hp : s.is_primary = true <;> simp only [hp, if_true,
          Bool.false_eq_true, if_false] <;> omega
      rw [hn]
    · intro x hx
      rw [List.mem_cons, not_or]
      refine ⟨?_, hns x (List.mem_cons_of_mem _ hx)⟩
      intro he
      exact hnd.1 (he ▸ List.mem_map_of_mem (·.project_repository_id) hx)

instance (pr : List SelRepoRow) (sel : List CreateTaskAttemptRepo) :
    Decidable (SelectionInconsistent pr sel) := by
  unfold SelectionInconsistent
  exact inferInstance

theorem selectRepositories_error (projectRepos : List SelRepoRow)
    (sel : List CreateTaskAttemptRepo) (hne : sel ≠ [])
    (hbad : SelectionInconsistent projectRepos sel) :
    ∃ msg, selectRepositories projectRepos (some sel)
      = .error (.validation msg) := by
  simp only [selectRepositories]
  rw [if_neg (fun h => hne (List.isEmpty_iff.mp h))]
  by_cases hfd : (∃ s ∈ sel, s.project_repository_id ∉ projectRepos.map (·.id)) ∨
      ¬ (sel.map (·.project_repository_id)).Nodup
  · obtain ⟨msg, hmsg⟩ := selLoop_error (projectRepos.map (·.id)) sel [] 0 []
      (by rcases hfd with h | h
          · exact Or.inl h
          · exact Or.inr (Or.inl h))
    rw [hmsg]
    exact ⟨msg, rfl⟩
  · push_neg at hfd
    obtain ⟨hall, hnd⟩ := hfd
    rw [selLoop_ok (projectRepos.map (·.id)) sel [] 0 [] hall hnd
      (by intro s _ h; cases h)]
    simp only [List.nil_append, Nat.zero_add]
    have hrowsne : (sel.map selToRow).isEmpty = false := by
      rw [List.isEmpty_eq_false_iff_exists_mem]
      cases sel with
      | nil => exact absurd rfl hne
      | cons s t => exact ⟨_, List.mem_map_of_mem _ (List.mem_cons_self s t)⟩
    rw [hrowsne]
    simp only [Bool.false_eq_true, if_false]
    have hcnteq : (sel.map selToRow).countP (fun r => r.is_primary)
        = sel.countP (fun s => s.is_primary) := by
      rw [List.countP_map]
      rfl
    rcases hbad with hb | hb | hb | hb
    · exact absurd hb (by push_neg; exact hall)
    · exact absurd hb (by push_neg; exact hnd)
    · rw [if_pos hb]
      exact ⟨"Only one repository may be marked as primary", rfl⟩
    · obtain ⟨hzero, hlen, hnoprim⟩ := hb
      rw [if_neg (by omega), if_pos hzero]
      have hlenrows : (sel.map selToRow).length ≠ 1 := by
        rw [List.length_map]
        omega
      have hc0 : (sel.map selToRow).countP (fun r => r.is_primary) = 0 := by
        rw [hcnteq]; exact hzero
      have hrows2 : (applyDefaultPrimary
          ((projectRepos.find? (fun r => r.is_primary)).map (·.id))
          (sel.map selToRow)).countP (fun r => r.is_primary) = 0 := by
        cases hfind : projectRepos.find? (fun r => r.is_primary) with
        | none =>
          simp only [applyDefaultPrimary, Option.map_none', if_neg hlenrows]
          exact hc0
        | some p =>
          have hpp : p.is_primary = true := List.find?_some hfind
          have hpmem : p ∈ projectRepos := List.mem_of_find?_eq_some hfind
          have hnotin := hnoprim p hpmem hpp
          have hanyf : ((sel.map selToRow).any (fun r => r.id == p.id))
              = false := by
            rw [List.any_eq_false]
            intro r hr hcon
            rcases List.mem_map.mp hr with ⟨s, hs, hse⟩
            rw [beq_iff_eq] at hcon
            apply hnotin
            rw [← hcon, ← hse]
            exact List.mem_map_of_mem (·.project_repository_id) hs
          simp only [applyDefaultPrimary, Option.map_some', hanyf,
            Bool.false_eq_true, if_false, if_neg hlenrows]
          exact hc0
      rw [if_pos (by rw [hrows2]; omega)]
      exact ⟨"One repository must be marked as primary", rfl⟩

/-- C3 counterexample scenario: a project with a task but zero repository
rows, and an attempt-creation request with no explicit selection. -/
def c3db0 : Db :=
  { projects := [exProject], project_repositories := [], tasks := [exTask],
    task_attempts := [], task_attempt_repositories := [] }

def c3data : CreateTaskAttempt := { base_branch := "main", repositories := none }

def c3Attempt : TaskAttemptRow := { id := "a1", task_id := "t" }

def c3Post : Db :=
  match TaskAttempt_create c3db0 c3data "t" "a1" "s1" 0 with
  | .ok (_, d) => d
  | .error _ => c3db0

/-- C3 counterexample: on a project with zero `project_repositories` rows,
`TaskAttempt::create` does not fail with a Validation error — it auto-seeds
a primary repository and succeeds. -/
theorem c3_counterexample :
    c3db0.project_repositories = [] ∧
    TaskAttempt_create c3db0 c3data "t" "a1" "s1" 0 = .ok (c3Attempt, c3Post) := by
  exact ⟨rfl, rfl⟩

/-- C3 (amended): (i) with at least one project repository, a non-empty
caller-provided selection that is inconsistent — a foreign id, a duplicate
id, more than one explicit primary, or no explicit primary with several
entries none of which is the project primary — makes `TaskAttempt::create`
fail with a Validation error (the transaction rolls back, so no attempt row
is created); (ii) on a project with zero repositories the call auto-seeds a
primary "Primary" repository from the project's `git_repo_path` and
succeeds, seeding one membership row; (iii) an explicitly empty selection
behaves exactly like no selection (fall back to all project repositories). -/
theorem c3_attempt_create_validation (db : Db) (bb taskId attemptId seedRepoId : String)
    (now : Int) :
    (∀ (task : TaskRow) (sel : List CreateTaskAttemptRepo),
      db.tasks.find? (fun t => t.id == taskId) = some task →
      db.project_repositories.filter (fun r => r.project_id == task.project_id) ≠ [] →
      sel ≠ [] →
      SelectionInconsistent
        ((db.project_repositories.filter (fun r =>
          r.project_id == task.project_id)).map (fun r =>
            ({ id := r.id, is_primary := r.is_primary } : SelRepoRow))) sel →
      ∃ msg, TaskAttempt_create db { base_branch := bb, repositories := some sel }
        taskId attemptId seedRepoId now = .error (.validation msg)) ∧
    (∀ (task : TaskRow) (project : ProjectRow),
      db.tasks.find? (fun t => t.id == taskId) = some task →
      db.projects.find? (fun p => p.id == task.project_id) = some project →
      db.project_repositories.filter (fun r => r.project_id == task.project_id) = [] →
      ∃ db', TaskAttempt_create db { base_branch := bb, repositories := none }
          taskId attemptId seedRepoId now
          = .ok ({ id := attemptId, task_id := taskId }, db') ∧
        ({ id := seedRepoId, project_id := task.project_id, name := "Primary",
           git_repo_path := project.git_repo_path, root_path := "",
           is_primary := true, created_at := now } : ProjectRepoRow)
          ∈ db'.project_repositories ∧
        ({ id := attemptId ++ "#" ++ seedRepoId, task_attempt_id := attemptId,
           project_repository_id := seedRepoId,
           is_primary := true } : TaskAttemptRepoRow)
          ∈ db'.task_attempt_repositories) ∧
    (TaskAttempt_create db { base_branch := bb, repositories := some [] }
        taskId attemptId seedRepoId now
      = TaskAttempt_create db { base_branch := bb, repositories := none }
        taskId attemptId seedRepoId now) := by
  refine ⟨?_, ?_, ?_⟩
  · intro task sel htask hne hselne hbad
    have hie : ((db.project_repositories.filter (fun r =>
        r.project_id == task.project_id)).map (fun r =>
          ({ id := r.id, is_primary := r.is_primary } : SelRepoRow))).isEmpty
        = false := by
      rw [List.isEmpty_eq_false_iff_exists_mem]
      cases hf : db.project_repositories.filter (fun r =>
          r.project_id == task.project_id) with
      | nil => exact absurd hf hne
      | cons x t =>
        exact ⟨_, List.mem_map_of_mem _ (List.mem_cons_self x t)⟩
    obtain ⟨msg, hmsg⟩ := selectRepositories_error _ sel hselne hbad
    refine ⟨msg, ?_⟩
    simp only [TaskAttempt_create, htask]
    rw [if_neg (by rw [hie]; exact Bool.false_ne_true)]
    dsimp only
    rw [hmsg]
  · intro task project htask hproj hempty
    simp only [TaskAttempt_create, htask]
    rw [if_pos (by rw [hempty]; rfl)]
    rw [hproj]
    refine ⟨_, rfl, ?_, ?_⟩
    · simp
    · simp
  · rfl

def c3BadSel : List CreateTaskAttemptRepo :=
  [{ project_repository_id := "zz", is_primary := false }]

def c3SeedRepo : ProjectRepoRow :=
  { id := "s1", project_id := "p", name := "Primary", git_repo_path := "/tmp/p",
    root_path := "", is_primary := true, created_at := 0 }

def c3MemberRow : TaskAttemptRepoRow :=
  { id := "a1#s1", task_attempt_id := "a1", project_repository_id := "s1",
    is_primary := true }

/-- Witness for C3: a selection naming a repository of another project is
rejected with a Validation error, and attempt creation on a zero-repository
project succeeds by auto-seeding. -/
theorem c3_attempt_create_validation_witness :
    (∃ msg, TaskAttempt_create exDb
        { base_branch := "main", repositories := some c3BadSel }
        "t" "a2" "s2" 5 = .error (.validation msg)) ∧
    (∃ db', TaskAttempt_create c3db0
        { base_branch := "main", repositories := none } "t" "a1" "s1" 0
        = .ok (c3Attempt, db') ∧
      c3SeedRepo ∈ db'.project_repositories ∧
      c3MemberRow ∈ db'.task_attempt_repositories) :=
  ⟨(c3_attempt_create_validation exDb "main" "t" "a2" "s2" 5).1 exTask c3BadSel
      rfl (by decide) (by decide) (by decide),
   (c3_attempt_create_validation c3db0 "main" "t" "a1" "s1" 0).2.1 exTask
      exProject rfl rfl rfl⟩

/-! ## crates/local-deployment/src/container.rs : diff-stream byte policy -/

/-- Modelled from the spec: `utils::diff::Diff` (the crate file is not under
src/); fields per §4.C — paths, contents, addition/deletion counts, the
`content_omitted` flag, and the repository metadata slots filled in by
`apply_repository_metadata`. -/
structure Diff where
  old_path : Option String
  new_path : Option String
  old_content : Option String
  new_content : Option String
  additions : Option Nat
  deletions : Option Nat
  content_omitted : Bool
  repository_id : Option String
  repository_name : Option String
  repository_root : Option String
deriving DecidableEq

/-- `MAX_CUMULATIVE_DIFF_BYTES = 200 * 1024 * 1024` (container.rs line 88). -/
def MAX_CUMULATIVE_DIFF_BYTES : Nat := 200 * 1024 * 1024

/-- `len(old_content) + len(new_content)` in bytes (lines 100-106). -/
def diffContentSize (d : Diff) : Nat :=
  (match d.old_content with | some s => s.utf8ByteSize | none => 0) +
  (match d.new_content with | some s => s.utf8ByteSize | none => 0)

/-- `for line in hunk.lines() { if first == c { … } }` (lines 120-128):
count the lines of a unified-diff hunk whose first character is `c`. -/
def countLeadingLines (c : Char) (hunk : String) : Nat :=
  (hunk.splitOn "\n").countP (fun line => line.data.head? == some c)

/-- `LocalContainerService::apply_stream_omit_policy` (lines 92-140).  The
unified-diff generator `create_unified_diff_hunk` (from `utils::diff`, not
under src/) is a parameter.  `Nat` addition models `saturating_add`
faithfully for the `> MAX` comparison, since saturation at `usize::MAX`
never changes the outcome of the comparison against the much smaller cap. -/
def apply_stream_omit_policy (hunk : String → String → String) (d : Diff)
    (sent : Nat) : Diff × Nat :=
  let size := diffContentSize d
  if size = 0 then (d, sent)
  else if sent + size > MAX_CUMULATIVE_DIFF_BYTES then
    let d1 := if d.additions = none ∧ d.deletions = none then
        let h := hunk (d.old_content.getD "") (d.new_content.getD "")
        { d with additions := some (countLeadingLines '+' h),
                 deletions := some (countLeadingLines '-' h) }
      else d
    ({ d1 with old_content := none, new_content := none,
               content_omitted := true }, sent)
  else (d, sent + size)

/-- The policy applied in sequence over the diffs a stream emits, threading
the shared `sent_bytes` counter. -/
def apply_stream_omit_policy_all (hunk : String → String → String) :
    List Diff → Nat → List Diff × Nat
  | [], sent => ([], sent)
  | d :: rest, sent =>
    let p := apply_stream_omit_policy hunk d sent
    let q := apply_stream_omit_policy_all hunk rest p.2
    (p.1 :: q.1, q.2)

theorem apply_policy_step (hunk : String → String → String) (d : Diff)
    (sent : Nat) :
    (apply_stream_omit_policy hunk d sent).2
      = sent + diffContentSize (apply_stream_omit_policy hunk d sent).1 ∧
    (sent ≤ MAX_CUMULATIVE_DIFF_BYTES →
      (apply_stream_omit_policy hunk d sent).2 ≤ MAX_CUMULATIVE_DIFF_BYTES) := by
  unfold apply_stream_omit_policy
  by_cases h0 : diffContentSize d = 0
  · rw [if_pos h0]
    refine ⟨?_, fun h => h⟩
    dsimp only
    omega
  · rw [if_neg h0]
    by_cases hover : sent + diffContentSize d > MAX_CUMULATIVE_DIFF_BYTES
    · rw [if_pos hover]
      exact ⟨rfl, fun h => h⟩
    · rw [if_neg hover]
      exact ⟨rfl, fun _ => by omega⟩

theorem apply_policy_all_spec (hunk : String → String → String) :
    ∀ (diffs : List Diff) (sent : Nat),
      (apply_stream_omit_policy_all hunk diffs sent).2
        = sent + (((apply_stream_omit_policy_all hunk diffs sent).1).map
            diffContentSize).sum ∧
      (sent ≤ MAX_CUMULATIVE_DIFF_BYTES →
        (apply_stream_omit_policy_all hunk diffs sent).2
          ≤ MAX_CUMULATIVE_DIFF_BYTES)
  | [], sent => by
    simp [apply_stream_omit_policy_all]
  | d :: rest, sent => by
    obtain ⟨hstep, hstepb⟩ := apply_policy_step hunk d sent
    obtain ⟨hrec, hrecb⟩ := apply_policy_all_spec hunk rest
      (apply_stream_omit_policy hunk d sent).2
    simp only [apply_stream_omit_policy_all, List.map_cons, List.sum_cons]
    refine ⟨?_, ?_⟩
    · rw [hrec, hstep]
      omega
    · intro hle
      exact hrecb (hstepb hle)

/-- C4: over any sequence of diffs a stream emits, the cumulative bytes of
`old_content` plus `new_content` never exceed 200 MiB; a diff whose
inclusion would exceed the budget is emitted with `content_omitted = true`
and no contents, leaves the counter unchanged, and — when both
`additions` and `deletions` were missing — gets them computed by counting
the leading `+` / `-` lines of a unified diff of the two contents. -/
theorem c4_diff_stream_byte_budget (hunk : String → String → String) :
    (∀ (diffs : List Diff),
      (((apply_stream_omit_policy_all hunk diffs 0).1).map diffContentSize).sum
        ≤ MAX_CUMULATIVE_DIFF_BYTES) ∧
    (∀ (d : Diff) (sent : Nat), sent ≤ MAX_CUMULATIVE_DIFF_BYTES →
      sent + diffContentSize d > MAX_CUMULATIVE_DIFF_BYTES →
      (apply_stream_omit_policy hunk d sent).1.content_omitted = true ∧
      (apply_stream_omit_policy hunk d sent).1.old_content = none ∧
      (apply_stream_omit_policy hunk d sent).1.new_content = none ∧
      (apply_stream_omit_policy hunk d sent).2 = sent ∧
      (d.additions = none ∧ d.deletions = none →
        (apply_stream_omit_policy hunk d sent).1.additions
          = some (countLeadingLines '+'
              (hunk (d.old_content.getD "") (d.new_content.getD ""))) ∧
        (apply_stream_omit_policy hunk d sent).1.deletions
          = some (countLeadingLines '-'
              (hunk (d.old_content.getD "") (d.new_content.getD ""))))) := by
  refine ⟨?_, ?_⟩
  · intro diffs
    obtain ⟨he, hb⟩ := apply_policy_all_spec hunk diffs 0
    have hfin := hb (by omega)
    omega
  · intro d sent hle hover
    have h0 : ¬ diffContentSize d = 0 := by omega
    unfold apply_stream_omit_policy
    rw [if_neg h0, if_pos hover]
    refine ⟨rfl, rfl, rfl, rfl, ?_⟩
    intro hnd
    rw [if_pos hnd]
    exact ⟨rfl, rfl⟩

def c4d : Diff :=
  { old_path := none, new_path := some "f", old_content := some "x",
    new_content := none, additions := none, deletions := none,
    content_omitted := false, repository_id := none, repository_name := none,
    repository_root := none }

def c4hunk : String → String → String := fun _ _ => "+x"

/-- Witness for C4: with the running total already at the cap, a one-byte
diff is omitted and annotated with the computed stats. -/
theorem c4_diff_stream_byte_budget_witness :
    (apply_stream_omit_policy c4hunk c4d MAX_CUMULATIVE_DIFF_BYTES).1.content_omitted
      = true ∧
    (apply_stream_omit_policy c4hunk c4d MAX_CUMULATIVE_DIFF_BYTES).1.additions
      = some (countLeadingLines '+' (c4hunk "x" "")) := by
  have h := (c4_diff_stream_byte_budget c4hunk).2 c4d MAX_CUMULATIVE_DIFF_BYTES
    (Nat.le_refl _) (by decide)
  exact ⟨h.1, (h.2.2.2.2 ⟨rfl, rfl⟩).1⟩

/-! ### Exit monitor: `spawn_exit_monitor` (container.rs lines 356-525) -/

/-- `ExecutionProcessStatus` (db models crate, not under src/); the variants
are those used by `container.rs`. -/
inductive ExecutionProcessStatus
  | running
  | completed
  | failed
  | killed
deriving DecidableEq

/-- `ExecutionProcessRunReason` (db models crate, not under src/); the
variants are those matched in `container.rs`. -/
inductive ExecutionProcessRunReason
  | setupScript
  | cleanupScript
  | codingAgent
  | devServer
deriving DecidableEq

/-- Model of `std::process::ExitStatus` on unix: a process either exited
with a code or was terminated by a signal.  `.code()` is `Some c` exactly
in the first case, and `.success()` holds exactly for exit code 0. -/
inductive ExitStatusModel
  | code (c : Int)
  | signal (s : Nat)
deriving DecidableEq

def ExitStatusModel.codeOf : ExitStatusModel → Option Int
  | .code c => some c
  | .signal _ => none

def ExitStatusModel.isSuccess : ExitStatusModel → Bool
  | .code c => c == 0
  | .signal _ => false

/-- `success_exit_status()` (container.rs lines 1217-1228):
`ExitStatusExt::from_raw(0)`, the status of a process that exited with
code 0.  This is the status forced after a cooperative exit signal
(line 391). -/
def success_exit_status : ExitStatusModel := .code 0

/-- Lines 399-410 of `spawn_exit_monitor`: map the awaited
`status_result : io::Result<ExitStatus>` (`none` models `Err(_)`) to the
`(exit_code, status)` pair recorded by `update_completion`:
`code().unwrap_or(-1)` and `Completed` iff `success()`. -/
def exitOutcome : Option ExitStatusModel → Option Int × ExecutionProcessStatus
  | some es => (some (es.codeOf.getD (-1)),
      if es.isSuccess then ExecutionProcessStatus.completed
      else ExecutionProcessStatus.failed)
  | none => (none, ExecutionProcessStatus.failed)

/-- `try_commit_changes` (container.rs lines 1639-1705).  The commit itself
(`self.git().commit`) is external and passed as `gitCommit` (the commit
message built on lines 1647-1690 only feeds that call and does not affect
the returned boolean).  `.error ()` models any `ContainerError`; a missing
`container_ref` errors (lines 1692-1694), and a run reason other than
CodingAgent / CleanupScript returns `Ok(false)` (lines 1640-1645). -/
def try_commit_changes (run_reason : ExecutionProcessRunReason)
    (container_ref : Option String)
    (gitCommit : String → Except Unit Bool) : Except Unit Bool :=
  if run_reason = .codingAgent ∨ run_reason = .cleanupScript then
    match container_ref with
    | none => .error ()
    | some cr => gitCommit cr
  else .ok false

/-- `should_finalize` (container.rs lines 180-190): the next action is
`None` and the run reason is not DevServer. -/
def should_finalize (has_next_action : Bool)
    (run_reason : ExecutionProcessRunReason) : Bool :=
  !has_next_action && !(run_reason == ExecutionProcessRunReason.devServer)

/-- What the tail of `spawn_exit_monitor` does after recording completion:
whether `try_start_next_action` is invoked and whether `finalize_task`
(which sets the task to `InReview`, lines 193-199) is invoked. -/
structure MonitorOutcome where
  next_action_started : Bool
  task_set_in_review : Bool
deriving DecidableEq

/-- Lines 425-475 of `spawn_exit_monitor`: if the recorded status is
`Completed` with exit code 0, commit changes (an `Err` from
`try_commit_changes` counts as `changes_committed = true`, lines 431-438);
for a CodingAgent run the next action starts only if changes were
committed, otherwise `finalize_task` runs instead (lines 440-462); and
independently `finalize_task` runs whenever `should_finalize` holds
(lines 465-475). -/
def monitor_post_exit (status : ExecutionProcessStatus)
    (exit_code : Option Int) (run_reason : ExecutionProcessRunReason)
    (commitResult : Except Unit Bool) (has_next_action : Bool) :
    MonitorOutcome :=
  let fin := should_finalize has_next_action run_reason
  if status = ExecutionProcessStatus.completed ∧ exit_code = some 0 then
    let changes_committed :=
      match commitResult with
      | .ok b => b
      | .error _ => true
    let should_start_next :=
      if run_reason = ExecutionProcessRunReason.codingAgent then
        changes_committed
      else true
    if should_start_next then
      { next_action_started := true, task_set_in_review := fin }
    else
      { next_action_started := false, task_set_in_review := true }
  else
    { next_action_started := false, task_set_in_review := fin }

/-- C10: an OS exit status that carries no exit code (termination by
signal) is recorded as status Failed with exit_code `-1`; the recorded
exit_code is null exactly when waiting for the child returned an error;
and the forced-success status substituted after a cooperative exit signal
is recorded as Completed with exit code 0. -/
theorem c10_exit_code_edge :
    (∀ s : Nat, exitOutcome (some (.signal s))
        = (some (-1), ExecutionProcessStatus.failed)) ∧
    (∀ r : Option ExitStatusModel,
        (exitOutcome r).1 = none ↔ r = none) ∧
    exitOutcome (some success_exit_status)
      = (some 0, ExecutionProcessStatus.completed) := by
  refine ⟨fun s => rfl, fun r => ?_, rfl⟩
  cases r with
  | none => simp [exitOutcome]
  | some es =>
    cases es <;> simp [exitOutcome, ExitStatusModel.codeOf]

/-- C5: when a CodingAgent process is observed terminating with status
Completed and exit code 0 and `try_commit_changes` returns `Ok(false)`,
the exit monitor does not start the next action and does set the task to
InReview (via `finalize_task`). -/
theorem c5_noop_coding_agent (cref : Option String)
    (gitCommit : String → Except Unit Bool) (has_next_action : Bool)
    (hcommit : try_commit_changes ExecutionProcessRunReason.codingAgent
        cref gitCommit = .ok false) :
    (monitor_post_exit ExecutionProcessStatus.completed (some 0)
        ExecutionProcessRunReason.codingAgent
        (try_commit_changes ExecutionProcessRunReason.codingAgent
          cref gitCommit)
        has_next_action).next_action_started = false ∧
    (monitor_post_exit ExecutionProcessStatus.completed (some 0)
        ExecutionProcessRunReason.codingAgent
        (try_commit_changes ExecutionProcessRunReason.codingAgent
          cref gitCommit)
        has_next_action).task_set_in_review = true := by
  rw [hcommit]
  cases has_next_action <;> exact ⟨rfl, rfl⟩

/-- Witness for C5 at a concrete context: a worktree at `/w`, a git commit
that reports no changes, and a pending next action. -/
theorem c5_noop_coding_agent_witness :
    (monitor_post_exit ExecutionProcessStatus.completed (some 0)
        ExecutionProcessRunReason.codingAgent
        (try_commit_changes ExecutionProcessRunReason.codingAgent
          (some "/w") (fun _ => .ok false))
        true).next_action_started = false ∧
    (monitor_post_exit ExecutionProcessStatus.completed (some 0)
        ExecutionProcessRunReason.codingAgent
        (try_commit_changes ExecutionProcessRunReason.codingAgent
          (some "/w") (fun _ => .ok false))
        true).task_set_in_review = true :=
  c5_noop_coding_agent (some "/w") (fun _ => .ok false) true rfl

/-! ### Expiration sweep: `TaskAttempt::find_expired_for_cleanup`
(task_attempt.rs lines 594-630) -/

/-- An `execution_processes` row, restricted to the columns the sweep
query reads. -/
structure EpRow where
  task_attempt_id : String
  completed_at : Option Int
deriving DecidableEq

/-- A `task_attempts` row restricted to the columns the sweep query
reads (the join through tasks/projects only fetches display columns and
does not filter). -/
structure SweepAttempt where
  id : String
  worktree_deleted : Bool
  updated_at : Int
deriving DecidableEq

/-- `completed_at` values of the attempt's completed execution processes:
the rows produced by the `LEFT JOIN execution_processes ep ON ta.id =
ep.task_attempt_id AND ep.completed_at IS NOT NULL` (line 599). -/
def completedTimes (eps : List EpRow) (attemptId : String) : List Int :=
  (eps.filter (fun ep => ep.task_attempt_id == attemptId)).filterMap
    (fun ep => ep.completed_at)

/-- The `NOT IN (SELECT ep2.task_attempt_id ... WHERE ep2.completed_at IS
NULL)` exclusion (lines 604-608). -/
def hasRunningProcess (eps : List EpRow) (attemptId : String) : Bool :=
  eps.any (fun ep =>
    ep.task_attempt_id == attemptId && ep.completed_at == none)

/-- The aggregate `MAX(CASE WHEN ep.completed_at IS NOT NULL THEN
ep.completed_at ELSE ta.updated_at END)` (lines 610-617): when the LEFT
JOIN matched at least one completed process, every joined row takes the
CASE's THEN branch, so the maximum ranges over completed times only;
`ta.updated_at` enters only through the single NULL-extended row produced
when no completed process exists. -/
def sqlLastActivity (eps : List EpRow) (a : SweepAttempt) : Int :=
  match completedTimes eps a.id with
  | [] => a.updated_at
  | t :: ts => ts.foldl max t

/-- The 72-hour window of `datetime('now', '-72 hours')` in seconds. -/
def EXPIRATION_SECONDS : Int := 72 * 3600

/-- `find_expired_for_cleanup` (lines 594-630): ids of attempts with
`worktree_deleted = FALSE`, no running process, and SQL last activity
older than 72 hours.  (`ORDER BY` only sorts the result and is not
modelled; the claim is about which attempts are returned.) -/
def find_expired_for_cleanup (attempts : List SweepAttempt)
    (eps : List EpRow) (now : Int) : List String :=
  (attempts.filter (fun a =>
      !a.worktree_deleted && !hasRunningProcess eps a.id &&
      decide (sqlLastActivity eps a < now - EXPIRATION_SECONDS))).map
    (fun a => a.id)

/-- The claim's (and the query's own doc comment's) notion of last
activity, following the spec's words: the maximum over the attempt's
execution processes' `completed_at` AND the attempt's `updated_at`. -/
def specLastActivity (eps : List EpRow) (a : SweepAttempt) : Int :=
  (completedTimes eps a.id).foldl max a.updated_at

def c7Attempt : SweepAttempt :=
  { id := "a", worktree_deleted := false, updated_at := 996400 }

def c7Ep : EpRow := { task_attempt_id := "a", completed_at := some 640000 }

/-- C7: divergence between the SQL and the claimed selection rule.  At
`now = 1000000` the attempt was updated one hour ago (`updated_at =
996400`) but its only execution process completed 100 hours ago
(`completed_at = 640000`).  The query returns the attempt (its aggregate
ignores `updated_at` once a completed process exists), yet the claimed
last-activity — the maximum of completed times and `updated_at` — is
within the 72-hour window, so the claim says the attempt must be kept. -/
theorem c7_expiration_sweep_divergence :
    find_expired_for_cleanup [c7Attempt] [c7Ep] 1000000 = ["a"] ∧
    c7Attempt.worktree_deleted = false ∧
    hasRunningProcess [c7Ep] c7Attempt.id = false ∧
    ¬ (specLastActivity [c7Ep] c7Attempt
        < 1000000 - EXPIRATION_SECONDS) := by
  refine ⟨rfl, rfl, rfl, ?_⟩
  decide

/-! ### Executor payload: `build_executor_payload`
(container.rs lines 627-791, text.rs lines 20-24, payload.rs) -/

/-- `short_uuid` (text.rs lines 20-24): the first four characters of the
hyphen-less (`simple()`) rendering of the id. -/
def short_uuid (u : String) : String :=
  ⟨(u.data.filter (fun c => c ≠ '-')).take 4⟩

/-- `repo_slug` (container.rs lines 609-616). -/
def repo_slug (repo : ProjectRepoRow) : String :=
  let slug := git_branch_id repo.name
  if slug.isEmpty then "repo-" ++ short_uuid repo.id
  else slug ++ "-" ++ short_uuid repo.id

/-- `repo_env_prefix` (container.rs lines 618-625): replace `-` by `_`,
ASCII-uppercase, fall back to `"REPO"` when empty.  (Per character the two
Rust passes compose to the single map below; `_` is not a lowercase ASCII
letter, so the order is immaterial.) -/
def repo_env_prefix_of (slug : String) : String :=
  let candidate : String :=
    ⟨slug.data.map (fun c => if c = '-' then '_' else c.toUpper)⟩
  if candidate.isEmpty then "REPO" else candidate

/-- The payload `env: HashMap<String, String>` as an insert-ordered
association list: `insert` prepends and lookup takes the most recent
binding, which realizes the map's overwrite semantics. -/
def envInsert (k v : String) (env : List (String × String)) :
    List (String × String) :=
  (k, v) :: env

def envLookup (k : String) (env : List (String × String)) : Option String :=
  (env.find? (fun p => p.1 == k)).map (fun p => p.2)

/-- The `if let Some(x) = ... { env.insert(...) }` pattern of
lines 764-778. -/
def optInsert (k : String) (o : Option String)
    (env : List (String × String)) : List (String × String) :=
  match o with
  | some v => envInsert k v env
  | none => env

/-- The columns of the refreshed `task_attempts` row read by
`build_executor_payload` (the row fetches themselves are modelled as
inputs). -/
structure PayloadAttempt where
  id : String
  container_ref : Option String
  branch : Option String
deriving DecidableEq

/-- The columns of a `task_attempt_repositories` row read by
`build_executor_payload`. -/
structure PayloadAttemptRepo where
  project_repository_id : String
  container_ref : Option String
  branch : Option String
deriving DecidableEq

/-- `ExecutorRepositoryContext` (payload.rs). -/
structure ExecutorRepositoryContext where
  id : String
  name : String
  slug : String
  worktree_path : String
  root_path : String
  branch : Option String
  is_primary : Bool
deriving DecidableEq

/-- `ExecutorPayload` (payload.rs); `CURRENT_VERSION = 1`. -/
structure ExecutorPayload where
  version : Nat
  attempt_id : String
  primary_repository_id : String
  repositories : List ExecutorRepositoryContext
  env : List (String × String)
deriving DecidableEq

def ExecutorPayload.CURRENT_VERSION : Nat := 1

/-- The `ContainerError::Other(anyhow!(...))` failures of
`build_executor_payload`, distinguished by message. -/
inductive PayloadError
  | noRepositories
  | repoMetadataMissing (repoId : String)
  | worktreeMissing (repoId : String)
  | primaryMissing
deriving DecidableEq

/-- `attempt_repo_lookup` (lines 651-654): `collect()` into a `HashMap`
keeps the last row per `project_repository_id`, so the lookup searches the
reversed list. -/
def lookupAttemptRepo (attemptRepos : List PayloadAttemptRepo)
    (repoId : String) : Option PayloadAttemptRepo :=
  attemptRepos.reverse.find? (fun ar => ar.project_repository_id == repoId)

/-- `attempt_repo.container_ref.clone().or_else(...)` (lines 675-690). -/
def resolveContainerPath (attempt : PayloadAttempt)
    (repo : ProjectRepoRow) (ar : PayloadAttemptRepo) : Option String :=
  match ar.container_ref with
  | some c => some c
  | none => if repo.is_primary then attempt.container_ref else none

/-- The mutable state threaded through the
`for repo in project_repositories` loop (lines 656-737). -/
structure PayloadLoopState where
  repositories_payload : List ExecutorRepositoryContext
  env : List (String × String)
  repo_prefixes : List String
  primary_repo_id : Option String
  primary_env_pfx : Option String
  primary_path : Option String
  primary_root : Option String
  primary_branch : Option String
  primary_name : Option String
deriving DecidableEq

def initPayloadState : PayloadLoopState :=
  { repositories_payload := [], env := [], repo_prefixes := [],
    primary_repo_id := none, primary_env_pfx := none, primary_path := none,
    primary_root := none, primary_branch := none, primary_name := none }

/-- `ar.branch.clone().or_else(|| refreshed_attempt.branch.clone())`
(lines 692-695). -/
def resolvedBranch (attempt : PayloadAttempt)
    (ar : PayloadAttemptRepo) : Option String :=
  match ar.branch with
  | some b => some b
  | none => attempt.branch

/-- The six `env.insert(format!("VIBE_REPO_{}_...", env_prefix), ...)`
calls of one loop iteration (lines 710-724), innermost first in program
order. -/
def stepEnv (attempt : PayloadAttempt) (repo : ProjectRepoRow)
    (ar : PayloadAttemptRepo) (cp : String)
    (env : List (String × String)) : List (String × String) :=
  envInsert ("VIBE_REPO_" ++ repo_env_prefix_of (repo_slug repo) ++ "_ID")
    repo.id
    (envInsert
      ("VIBE_REPO_" ++ repo_env_prefix_of (repo_slug repo) ++ "_IS_PRIMARY")
      (if repo.is_primary then "1" else "0")
      (envInsert
        ("VIBE_REPO_" ++ repo_env_prefix_of (repo_slug repo) ++ "_NAME")
        repo.name
        (envInsert
          ("VIBE_REPO_" ++ repo_env_prefix_of (repo_slug repo) ++ "_BRANCH")
          ((resolvedBranch attempt ar).getD "")
          (envInsert
            ("VIBE_REPO_" ++ repo_env_prefix_of (repo_slug repo) ++ "_ROOT")
            repo.root_path
            (envInsert
              ("VIBE_REPO_" ++ repo_env_prefix_of (repo_slug repo) ++ "_PATH")
              cp env)))))

/-- One iteration of the loop body (lines 692-737), after the attempt-repo
row `ar` and the container path `cp` have been resolved. -/
def payloadStep (attempt : PayloadAttempt) (st : PayloadLoopState)
    (repo : ProjectRepoRow) (ar : PayloadAttemptRepo) (cp : String) :
    PayloadLoopState :=
  let branch := resolvedBranch attempt ar
  let branch_for_env := branch.getD ""
  let slug := repo_slug repo
  let env_pfx := repo_env_prefix_of slug
  let env6 := stepEnv attempt repo ar cp st.env
  let ctx : ExecutorRepositoryContext :=
    { id := repo.id, name := repo.name, slug := slug, worktree_path := cp,
      root_path := repo.root_path, branch := branch,
      is_primary := repo.is_primary }
  { repositories_payload := st.repositories_payload ++ [ctx],
    env := env6,
    repo_prefixes := st.repo_prefixes ++ [env_pfx],
    primary_repo_id := if repo.is_primary then some repo.id else st.primary_repo_id,
    primary_env_pfx := if repo.is_primary then some env_pfx else st.primary_env_pfx,
    primary_path := if repo.is_primary then some cp else st.primary_path,
    primary_root := if repo.is_primary then some repo.root_path else st.primary_root,
    primary_branch := if repo.is_primary then some branch_for_env else st.primary_branch,
    primary_name := if repo.is_primary then some repo.name else st.primary_name }

/-- The repository loop (lines 667-737), with the two `ok_or_else` early
returns. -/
def payloadLoop (attempt : PayloadAttempt)
    (attemptRepos : List PayloadAttemptRepo) :
    List ProjectRepoRow → PayloadLoopState →
      Except PayloadError PayloadLoopState
  | [], st => .ok st
  | repo :: rest, st =>
    match lookupAttemptRepo attemptRepos repo.id with
    | none => .error (.repoMetadataMissing repo.id)
    | some ar =>
      match resolveContainerPath attempt repo ar with
      | none => .error (.worktreeMissing repo.id)
      | some cp =>
        payloadLoop attempt attemptRepos rest (payloadStep attempt st repo ar cp)

/-- The post-loop env inserts (lines 746-778), innermost first in program
order. -/
def finalizeEnv (attempt : PayloadAttempt) (st : PayloadLoopState)
    (primaryId : String) : List (String × String) :=
  optInsert "VIBE_PRIMARY_REPO_NAME" st.primary_name
    (optInsert "VIBE_PRIMARY_REPO_BRANCH" st.primary_branch
      (optInsert "VIBE_PRIMARY_REPO_ROOT" st.primary_root
        (optInsert "VIBE_PRIMARY_REPO_PATH" st.primary_path
          (optInsert "VIBE_PRIMARY_REPO_PREFIX" st.primary_env_pfx
            (envInsert "VIBE_PRIMARY_REPOSITORY_ID" primaryId
              (envInsert "VIBE_TASK_ATTEMPT_ID" attempt.id
                (envInsert "VIBE_REPOSITORIES"
                  (String.intercalate "," st.repo_prefixes)
                  (envInsert "VIBE_REPOSITORY_COUNT"
                    (toString st.repo_prefixes.length)
                    (envInsert "VIBE_EXECUTOR_PAYLOAD_VERSION"
                      (toString ExecutorPayload.CURRENT_VERSION)
                      st.env)))))))))

/-- `build_executor_payload` (lines 627-791).  The db fetches are inputs;
envelope serialization (`try_new`, outside src/) is not modelled. -/
def build_executor_payload (attempt : PayloadAttempt)
    (attemptRepos : List PayloadAttemptRepo)
    (project_repositories : List ProjectRepoRow) :
    Except PayloadError ExecutorPayload :=
  if project_repositories.isEmpty then .error .noRepositories
  else
    match payloadLoop attempt attemptRepos project_repositories initPayloadState with
    | .error e => .error e
    | .ok st =>
      match st.primary_repo_id with
      | none => .error .primaryMissing
      | some primaryId =>
        .ok { version := ExecutorPayload.CURRENT_VERSION,
              attempt_id := attempt.id,
              primary_repository_id := primaryId,
              repositories := st.repositories_payload,
              env := finalizeEnv attempt st primaryId }

theorem envLookup_insert_self {k v : String}
    (env : List (String × String)) :
    envLookup k (envInsert k v env) = some v := by
  unfold envLookup envInsert
  have hb : (((k, v) : String × String).1 == k) = true := by
    simp
  simp only [List.find?, hb]
  rfl

theorem envLookup_insert_ne {k k' v : String}
    {env : List (String × String)} (h : k' ≠ k) :
    envLookup k (envInsert k' v env) = envLookup k env := by
  unfold envLookup envInsert
  have hb : (((k', v) : String × String).1 == k) = false := by
    simp [h]
  simp only [List.find?, hb]

theorem envLookup_insert_isSome {k : String} (k' v : String)
    {env : List (String × String)}
    (h : (envLookup k env).isSome = true) :
    (envLookup k (envInsert k' v env)).isSome = true := by
  by_cases hk : k' = k
  · subst hk
    rw [envLookup_insert_self]
    rfl
  · rw [envLookup_insert_ne hk]
    exact h

theorem envLookup_optInsert_ne {k k' : String} (o : Option String)
    {env : List (String × String)} (h : k' ≠ k) :
    envLookup k (optInsert k' o env) = envLookup k env := by
  cases o with
  | none => rfl
  | some v => exact envLookup_insert_ne h

theorem envLookup_optInsert_isSome {k : String} (k' : String)
    (o : Option String) {env : List (String × String)}
    (h : (envLookup k env).isSome = true) :
    (envLookup k (optInsert k' o env)).isSome = true := by
  cases o with
  | none => exact h
  | some v => exact envLookup_insert_isSome k' v h

/-- The last character of a key, by way of the head of its reversed
character list. -/
def lastIsY (k : String) : Prop := k.data.reverse.head? = some 'Y'

instance (k : String) : Decidable (lastIsY k) := by
  unfold lastIsY
  exact inferInstance

/-- A key built by appending a literal suffix whose last character is not
`'Y'` never satisfies `lastIsY`, whatever the variable part. -/
theorem notY_append (pre t : String) (c : Char)
    (hc : t.data.reverse.head? = some c) (hne : c ≠ 'Y') :
    ¬ lastIsY (pre ++ t) := by
  unfold lastIsY
  have hdata : (pre ++ t).data = pre.data ++ t.data := rfl
  rw [hdata, List.reverse_append]
  cases ht : t.data.reverse with
  | nil =>
    rw [ht] at hc
    exact absurd hc (by simp)
  | cons a l =>
    rw [ht] at hc
    have ha : a = c := by
      simpa using hc
    rw [List.cons_append, List.head?_cons]
    intro hcon
    injection hcon with h2
    exact hne (ha ▸ h2)

/-- A key ending in the literal `"_IS_PRIMARY"` always satisfies
`lastIsY`. -/
theorem lastIsY_append (pre : String) : lastIsY (pre ++ "_IS_PRIMARY") := by
  unfold lastIsY
  have hdata : (pre ++ "_IS_PRIMARY").data
      = pre.data ++ "_IS_PRIMARY".data := rfl
  rw [hdata, List.reverse_append]
  rfl

/-- Every binding whose key ends in `'Y'` holds `"1"` or `"0"`.  Of all
keys `build_executor_payload` ever inserts, exactly the `_IS_PRIMARY` keys
end in `'Y'` (the others end in `H`, `T`, `E`, `D`, `N`, `S` or `X`), so
this invariant pins down every lookup of an `_IS_PRIMARY` key even when
repository prefixes collide and a later repository overwrites the key. -/
def EnvPrimInv (env : List (String × String)) : Prop :=
  ∀ p ∈ env, lastIsY p.1 → p.2 = "1" ∨ p.2 = "0"

theorem envPrimInv_nil : EnvPrimInv [] := by
  intro p hp
  exact absurd hp (by simp)

theorem envPrimInv_insert_notY {k v : String}
    (hk : ¬ lastIsY k) {env : List (String × String)}
    (h : EnvPrimInv env) : EnvPrimInv (envInsert k v env) := by
  intro p hp hY
  rcases List.mem_cons.mp hp with he | hm
  · subst he
    exact absurd hY hk
  · exact h p hm hY

theorem envPrimInv_insert_primVal {k v : String}
    (hv : v = "1" ∨ v = "0") {env : List (String × String)}
    (h : EnvPrimInv env) : EnvPrimInv (envInsert k v env) := by
  intro p hp hY
  rcases List.mem_cons.mp hp with he | hm
  · subst he
    exact hv
  · exact h p hm hY

theorem envPrimInv_optInsert_notY {k : String} {o : Option String}
    (hk : ¬ lastIsY k) {env : List (String × String)}
    (h : EnvPrimInv env) : EnvPrimInv (optInsert k o env) := by
  cases o with
  | none => exact h
  | some v => exact envPrimInv_insert_notY hk h

theorem find?_pred {α : Type} (f : α → Bool) :
    ∀ (l : List α) (a : α), l.find? f = some a → f a = true
  | [], a, h => by exact absurd h (by simp)
  | x :: t, a, h => by
    cases hx : f x with
    | true =>
      simp only [List.find?, hx] at h
      injection h with h'
      rw [← h']
      exact hx
    | false =>
      simp only [List.find?, hx] at h
      exact find?_pred f t a h

/-- What the invariant buys: a successful lookup of a key ending in `'Y'`
yields `"1"` or `"0"`. -/
theorem envPrimInv_lookup {env : List (String × String)}
    (h : EnvPrimInv env) {k v : String} (hY : lastIsY k)
    (hl : envLookup k env = some v) : v = "1" ∨ v = "0" := by
  unfold envLookup at hl
  cases hf : env.find? (fun p => p.1 == k) with
  | none =>
    rw [hf] at hl
    exact absurd hl (by simp)
  | some p =>
    rw [hf] at hl
    have hv : p.2 = v := by
      simpa using hl
    have hmem : p ∈ env := List.mem_of_find?_eq_some hf
    have hbk : (p.1 == k) = true := find?_pred _ env p hf
    have hpk : p.1 = k := by
      exact eq_of_beq hbk
    have hres := h p hmem (by rw [hpk]; exact hY)
    rw [hv] at hres
    exact hres

theorem payloadStep_env (attempt : PayloadAttempt) (st : PayloadLoopState)
    (repo : ProjectRepoRow) (ar : PayloadAttemptRepo) (cp : String) :
    (payloadStep attempt st repo ar cp).env
      = stepEnv attempt repo ar cp st.env := rfl

theorem payloadStep_prefixes (attempt : PayloadAttempt)
    (st : PayloadLoopState) (repo : ProjectRepoRow)
    (ar : PayloadAttemptRepo) (cp : String) :
    (payloadStep attempt st repo ar cp).repo_prefixes
      = st.repo_prefixes ++ [repo_env_prefix_of (repo_slug repo)] := rfl

theorem payloadStep_primary (attempt : PayloadAttempt)
    (st : PayloadLoopState) (repo : ProjectRepoRow)
    (ar : PayloadAttemptRepo) (cp : String) :
    (payloadStep attempt st repo ar cp).primary_repo_id
      = if repo.is_primary then some repo.id else st.primary_repo_id := rfl

theorem stepEnv_mono (attempt : PayloadAttempt) (repo : ProjectRepoRow)
    (ar : PayloadAttemptRepo) (cp : String)
    {env : List (String × String)} {k : String}
    (h : (envLookup k env).isSome = true) :
    (envLookup k (stepEnv attempt repo ar cp env)).isSome = true := by
  unfold stepEnv
  apply envLookup_insert_isSome
  apply envLookup_insert_isSome
  apply envLookup_insert_isSome
  apply envLookup_insert_isSome
  apply envLookup_insert_isSome
  apply envLookup_insert_isSome
  exact h

theorem stepEnv_keys (attempt : PayloadAttempt) (repo : ProjectRepoRow)
    (ar : PayloadAttemptRepo) (cp : String)
    (env : List (String × String)) :
    ((envLookup ("VIBE_REPO_" ++ repo_env_prefix_of (repo_slug repo) ++ "_ID")
        (stepEnv attempt repo ar cp env)).isSome = true) ∧
    ((envLookup ("VIBE_REPO_" ++ repo_env_prefix_of (repo_slug repo) ++ "_PATH")
        (stepEnv attempt repo ar cp env)).isSome = true) ∧
    ((envLookup ("VIBE_REPO_" ++ repo_env_prefix_of (repo_slug repo) ++ "_ROOT")
        (stepEnv attempt repo ar cp env)).isSome = true) ∧
    ((envLookup ("VIBE_REPO_" ++ repo_env_prefix_of (repo_slug repo) ++ "_BRANCH")
        (stepEnv attempt repo ar cp env)).isSome = true) ∧
    ((envLookup ("VIBE_REPO_" ++ repo_env_prefix_of (repo_slug repo) ++ "_NAME")
        (stepEnv attempt repo ar cp env)).isSome = true) ∧
    ((envLookup
        ("VIBE_REPO_" ++ repo_env_prefix_of (repo_slug repo) ++ "_IS_PRIMARY")
        (stepEnv attempt repo ar cp env)).isSome = true) := by
  unfold stepEnv
  refine ⟨?_, ?_, ?_, ?_, ?_, ?_⟩
  · rw [envLookup_insert_self]
    rfl
  · apply envLookup_insert_isSome
    apply envLookup_insert_isSome
    apply envLookup_insert_isSome
    apply envLookup_insert_isSome
    apply envLookup_insert_isSome
    rw [envLookup_insert_self]
    rfl
  · apply envLookup_insert_isSome
    apply envLookup_insert_isSome
    apply envLookup_insert_isSome
    apply envLookup_insert_isSome
    rw [envLookup_insert_self]
    rfl
  · apply envLookup_insert_isSome
    apply envLookup_insert_isSome
    apply envLookup_insert_isSome
    rw [envLookup_insert_self]
    rfl
  · apply envLookup_insert_isSome
    apply envLookup_insert_isSome
    rw [envLookup_insert_self]
    rfl
  · apply envLookup_insert_isSome
    rw [envLookup_insert_self]
    rfl

theorem stepEnv_primInv (attempt : PayloadAttempt) (repo : ProjectRepoRow)
    (ar : PayloadAttemptRepo) (cp : String)
    {env : List (String × String)} (h : EnvPrimInv env) :
    EnvPrimInv (stepEnv attempt repo ar cp env) := by
  unfold stepEnv
  apply envPrimInv_insert_notY (notY_append _ "_ID" 'D' (by decide) (by decide))
  apply envPrimInv_insert_primVal ?hv
  case hv =>
    cases hb : repo.is_primary <;> simp [hb]
  apply envPrimInv_insert_notY (notY_append _ "_NAME" 'E' (by decide) (by decide))
  apply envPrimInv_insert_notY (notY_append _ "_BRANCH" 'H' (by decide) (by decide))
  apply envPrimInv_insert_notY (notY_append _ "_ROOT" 'T' (by decide) (by decide))
  apply envPrimInv_insert_notY (notY_append _ "_PATH" 'H' (by decide) (by decide))
  exact h

theorem payloadLoop_env_mono (attempt : PayloadAttempt)
    (attemptRepos : List PayloadAttemptRepo) :
    ∀ (repos : List ProjectRepoRow) (st st' : PayloadLoopState),
      payloadLoop attempt attemptRepos repos st = .ok st' →
      ∀ k : String, (envLookup k st.env).isSome = true →
        (envLookup k st'.env).isSome = true
  | [], st, st', h => by
    intro k hk
    injection h with h'
    rw [← h']
    exact hk
  | repo :: rest, st, st', h => by
    intro k hk
    unfold payloadLoop at h
    cases hla : lookupAttemptRepo attemptRepos repo.id with
    | none =>
      rw [hla] at h
      exact absurd h (by simp)
    | some ar =>
      rw [hla] at h
      dsimp only at h
      cases hcp : resolveContainerPath attempt repo ar with
      | none =>
        rw [hcp] at h
        exact absurd h (by simp)
      | some cp =>
        rw [hcp] at h
        dsimp only at h
        refine payloadLoop_env_mono attempt attemptRepos rest _ st' h k ?_
        rw [payloadStep_env]
        exact stepEnv_mono attempt repo ar cp hk

theorem payloadLoop_envPrimInv (attempt : PayloadAttempt)
    (attemptRepos : List PayloadAttemptRepo) :
    ∀ (repos : List ProjectRepoRow) (st st' : PayloadLoopState),
      payloadLoop attempt attemptRepos repos st = .ok st' →
      EnvPrimInv st.env → EnvPrimInv st'.env
  | [], st, st', h => by
    intro hinv
    injection h with h'
    rw [← h']
    exact hinv
  | repo :: rest, st, st', h => by
    intro hinv
    unfold payloadLoop at h
    cases hla : lookupAttemptRepo attemptRepos repo.id with
    | none =>
      rw [hla] at h
      exact absurd h (by simp)
    | some ar =>
      rw [hla] at h
      dsimp only at h
      cases hcp : resolveContainerPath attempt repo ar with
      | none =>
        rw [hcp] at h
        exact absurd h (by simp)
      | some cp =>
        rw [hcp] at h
        dsimp only at h
        refine payloadLoop_envPrimInv attempt attemptRepos rest _ st' h ?_
        rw [payloadStep_env]
        exact stepEnv_primInv attempt repo ar cp hinv

theorem payloadLoop_member_keys (attempt : PayloadAttempt)
    (attemptRepos : List PayloadAttemptRepo) :
    ∀ (repos : List ProjectRepoRow) (st st' : PayloadLoopState),
      payloadLoop attempt attemptRepos repos st = .ok st' →
      ∀ repo ∈ repos,
        ((envLookup
            ("VIBE_REPO_" ++ repo_env_prefix_of (repo_slug repo) ++ "_ID")
            st'.env).isSome = true) ∧
        ((envLookup
            ("VIBE_REPO_" ++ repo_env_prefix_of (repo_slug repo) ++ "_PATH")
            st'.env).isSome = true) ∧
        ((envLookup
            ("VIBE_REPO_" ++ repo_env_prefix_of (repo_slug repo) ++ "_ROOT")
            st'.env).isSome = true) ∧
        ((envLookup
            ("VIBE_REPO_" ++ repo_env_prefix_of (repo_slug repo) ++ "_BRANCH")
            st'.env).isSome = true) ∧
        ((envLookup
            ("VIBE_REPO_" ++ repo_env_prefix_of (repo_slug repo) ++ "_NAME")
            st'.env).isSome = true) ∧
        ((envLookup
            ("VIBE_REPO_" ++ repo_env_prefix_of (repo_slug repo) ++ "_IS_PRIMARY")
            st'.env).isSome = true)
  | [], st, st', h => by
    intro repo hr
    exact absurd hr (by simp)
  | repo0 :: rest, st, st', h => by
    intro repo hr
    unfold payloadLoop at h
    cases hla : lookupAttemptRepo attemptRepos repo0.id with
    | none =>
      rw [hla] at h
      exact absurd h (by simp)
    | some ar =>
      rw [hla] at h
      dsimp only at h
      cases hcp : resolveContainerPath attempt repo0 ar with
      | none =>
        rw [hcp] at h
        exact absurd h (by simp)
      | some cp =>
        rw [hcp] at h
        dsimp only at h
        rcases List.mem_cons.mp hr with he | hm
        · subst he
          have hkeys := stepEnv_keys attempt repo ar cp st.env
          rw [← payloadStep_env attempt st repo ar cp] at hkeys
          have hmono := payloadLoop_env_mono attempt attemptRepos rest _ st' h
          exact ⟨hmono _ hkeys.1, hmono _ hkeys.2.1, hmono _ hkeys.2.2.1,
                 hmono _ hkeys.2.2.2.1, hmono _ hkeys.2.2.2.2.1,
                 hmono _ hkeys.2.2.2.2.2⟩
        · exact payloadLoop_member_keys attempt attemptRepos rest _ st' h repo hm

theorem payloadLoop_prefixes (attempt : PayloadAttempt)
    (attemptRepos : List PayloadAttemptRepo) :
    ∀ (repos : List ProjectRepoRow) (st st' : PayloadLoopState),
      payloadLoop attempt attemptRepos repos st = .ok st' →
      st'.repo_prefixes = st.repo_prefixes
        ++ repos.map (fun r => repo_env_prefix_of (repo_slug r))
  | [], st, st', h => by
    injection h with h'
    rw [← h']
    simp
  | repo :: rest, st, st', h => by
    unfold payloadLoop at h
    cases hla : lookupAttemptRepo attemptRepos repo.id with
    | none =>
      rw [hla] at h
      exact absurd h (by simp)
    | some ar =>
      rw [hla] at h
      dsimp only at h
      cases hcp : resolveContainerPath attempt repo ar with
      | none =>
        rw [hcp] at h
        exact absurd h (by simp)
      | some cp =>
        rw [hcp] at h
        dsimp only at h
        have hrec := payloadLoop_prefixes attempt attemptRepos rest _ st' h
        rw [hrec, payloadStep_prefixes]
        simp [List.append_assoc]

theorem payloadLoop_primary_none (attempt : PayloadAttempt)
    (attemptRepos : List PayloadAttemptRepo) :
    ∀ (repos : List ProjectRepoRow) (st st' : PayloadLoopState),
      payloadLoop attempt attemptRepos repos st = .ok st' →
      (∀ r ∈ repos, r.is_primary = false) →
      st'.primary_repo_id = st.primary_repo_id
  | [], st, st', h => by
    intro _
    injection h with h'
    rw [← h']
  | repo :: rest, st, st', h => by
    intro hnp
    unfold payloadLoop at h
    cases hla : lookupAttemptRepo attemptRepos repo.id with
    | none =>
      rw [hla] at h
      exact absurd h (by simp)
    | some ar =>
      rw [hla] at h
      dsimp only at h
      cases hcp : resolveContainerPath attempt repo ar with
      | none =>
        rw [hcp] at h
        exact absurd h (by simp)
      | some cp =>
        rw [hcp] at h
        dsimp only at h
        have hrec := payloadLoop_primary_none attempt attemptRepos rest _ st' h
          (fun r hr => hnp r (List.mem_cons_of_mem _ hr))
        rw [hrec, payloadStep_primary, hnp repo (List.mem_cons_self _ _)]
        rfl

theorem finalizeEnv_mono (attempt : PayloadAttempt) (st : PayloadLoopState)
    (primaryId : String) {k : String}
    (h : (envLookup k st.env).isSome = true) :
    (envLookup k (finalizeEnv attempt st primaryId)).isSome = true := by
  unfold finalizeEnv
  apply envLookup_optInsert_isSome
  apply envLookup_optInsert_isSome
  apply envLookup_optInsert_isSome
  apply envLookup_optInsert_isSome
  apply envLookup_optInsert_isSome
  apply envLookup_insert_isSome
  apply envLookup_insert_isSome
  apply envLookup_insert_isSome
  apply envLookup_insert_isSome
  apply envLookup_insert_isSome
  exact h

theorem finalizeEnv_primInv (attempt : PayloadAttempt)
    (st : PayloadLoopState) (primaryId : String)
    (h : EnvPrimInv st.env) :
    EnvPrimInv (finalizeEnv attempt st primaryId) := by
  unfold finalizeEnv
  apply envPrimInv_optInsert_notY (by decide)
  apply envPrimInv_optInsert_notY (by decide)
  apply envPrimInv_optInsert_notY (by decide)
  apply envPrimInv_optInsert_notY (by decide)
  apply envPrimInv_optInsert_notY (by decide)
  apply envPrimInv_insert_notY (by decide)
  apply envPrimInv_insert_notY (by decide)
  apply envPrimInv_insert_notY (by decide)
  apply envPrimInv_insert_notY (by decide)
  apply envPrimInv_insert_notY (by decide)
  exact h

theorem finalizeEnv_count (attempt : PayloadAttempt) (st : PayloadLoopState)
    (primaryId : String) :
    envLookup "VIBE_REPOSITORY_COUNT" (finalizeEnv attempt st primaryId)
      = some (toString st.repo_prefixes.length) := by
  have h1 : ("VIBE_PRIMARY_REPO_NAME" : String) ≠ "VIBE_REPOSITORY_COUNT" := by decide
  have h2 : ("VIBE_PRIMARY_REPO_BRANCH" : String) ≠ "VIBE_REPOSITORY_COUNT" := by decide
  have h3 : ("VIBE_PRIMARY_REPO_ROOT" : String) ≠ "VIBE_REPOSITORY_COUNT" := by decide
  have h4 : ("VIBE_PRIMARY_REPO_PATH" : String) ≠ "VIBE_REPOSITORY_COUNT" := by decide
  have h5 : ("VIBE_PRIMARY_REPO_PREFIX" : String) ≠ "VIBE_REPOSITORY_COUNT" := by decide
  have h6 : ("VIBE_PRIMARY_REPOSITORY_ID" : String) ≠ "VIBE_REPOSITORY_COUNT" := by decide
  have h7 : ("VIBE_TASK_ATTEMPT_ID" : String) ≠ "VIBE_REPOSITORY_COUNT" := by decide
  have h8 : ("VIBE_REPOSITORIES" : String) ≠ "VIBE_REPOSITORY_COUNT" := by decide
  unfold finalizeEnv
  rw [envLookup_optInsert_ne _ h1, envLookup_optInsert_ne _ h2,
      envLookup_optInsert_ne _ h3, envLookup_optInsert_ne _ h4,
      envLookup_optInsert_ne _ h5, envLookup_insert_ne h6,
      envLookup_insert_ne h7, envLookup_insert_ne h8,
      envLookup_insert_self]

theorem finalizeEnv_repositories (attempt : PayloadAttempt)
    (st : PayloadLoopState) (primaryId : String) :
    envLookup "VIBE_REPOSITORIES" (finalizeEnv attempt st primaryId)
      = some (String.intercalate "," st.repo_prefixes) := by
  have h1 : ("VIBE_PRIMARY_REPO_NAME" : String) ≠ "VIBE_REPOSITORIES" := by decide
  have h2 : ("VIBE_PRIMARY_REPO_BRANCH" : String) ≠ "VIBE_REPOSITORIES" := by decide
  have h3 : ("VIBE_PRIMARY_REPO_ROOT" : String) ≠ "VIBE_REPOSITORIES" := by decide
  have h4 : ("VIBE_PRIMARY_REPO_PATH" : String) ≠ "VIBE_REPOSITORIES" := by decide
  have h5 : ("VIBE_PRIMARY_REPO_PREFIX" : String) ≠ "VIBE_REPOSITORIES" := by decide
  have h6 : ("VIBE_PRIMARY_REPOSITORY_ID" : String) ≠ "VIBE_REPOSITORIES" := by decide
  have h7 : ("VIBE_TASK_ATTEMPT_ID" : String) ≠ "VIBE_REPOSITORIES" := by decide
  unfold finalizeEnv
  rw [envLookup_optInsert_ne _ h1, envLookup_optInsert_ne _ h2,
      envLookup_optInsert_ne _ h3, envLookup_optInsert_ne _ h4,
      envLookup_optInsert_ne _ h5, envLookup_insert_ne h6,
      envLookup_insert_ne h7, envLookup_insert_self]

/-- C6: whenever `build_executor_payload` succeeds, for every project
repository the env map holds the `VIBE_REPO_P_{ID,PATH,ROOT,BRANCH,NAME,
IS_PRIMARY}` keys for that repository's derived prefix `P`, with the
`IS_PRIMARY` value `"1"` or `"0"`; `VIBE_REPOSITORY_COUNT` is the number
of repositories and `VIBE_REPOSITORIES` the comma-separated prefix list;
and success is impossible when no project repository has
`is_primary = true`. -/
theorem c6_executor_payload_env (attempt : PayloadAttempt)
    (attemptRepos : List PayloadAttemptRepo)
    (project_repositories : List ProjectRepoRow) (payload : ExecutorPayload)
    (hok : build_executor_payload attempt attemptRepos project_repositories
        = .ok payload) :
    (∀ repo ∈ project_repositories,
      ((envLookup ("VIBE_REPO_" ++ repo_env_prefix_of (repo_slug repo) ++ "_ID")
          payload.env).isSome = true) ∧
      ((envLookup ("VIBE_REPO_" ++ repo_env_prefix_of (repo_slug repo) ++ "_PATH")
          payload.env).isSome = true) ∧
      ((envLookup ("VIBE_REPO_" ++ repo_env_prefix_of (repo_slug repo) ++ "_ROOT")
          payload.env).isSome = true) ∧
      ((envLookup ("VIBE_REPO_" ++ repo_env_prefix_of (repo_slug repo) ++ "_BRANCH")
          payload.env).isSome = true) ∧
      ((envLookup ("VIBE_REPO_" ++ repo_env_prefix_of (repo_slug repo) ++ "_NAME")
          payload.env).isSome = true) ∧
      (envLookup
          ("VIBE_REPO_" ++ repo_env_prefix_of (repo_slug repo) ++ "_IS_PRIMARY")
          payload.env = some "1" ∨
       envLookup
          ("VIBE_REPO_" ++ repo_env_prefix_of (repo_slug repo) ++ "_IS_PRIMARY")
          payload.env = some "0")) ∧
    envLookup "VIBE_REPOSITORY_COUNT" payload.env
      = some (toString project_repositories.length) ∧
    envLookup "VIBE_REPOSITORIES" payload.env
      = some (String.intercalate ","
          (project_repositories.map (fun r => repo_env_prefix_of (repo_slug r)))) ∧
    ¬ (∀ r ∈ project_repositories, r.is_primary = false) := by
  unfold build_executor_payload at hok
  by_cases he : project_repositories.isEmpty
  · rw [if_pos he] at hok
    exact absurd hok (by simp)
  rw [if_neg he] at hok
  cases hloop : payloadLoop attempt attemptRepos project_repositories
      initPayloadState with
  | error e =>
    rw [hloop] at hok
    exact absurd hok (by simp)
  | ok st =>
    rw [hloop] at hok
    dsimp only at hok
    cases hprim : st.primary_repo_id with
    | none =>
      rw [hprim] at hok
      exact absurd hok (by simp)
    | some primaryId =>
      rw [hprim] at hok
      dsimp only at hok
      injection hok with hpay
      have henv : payload.env = finalizeEnv attempt st primaryId := by
        rw [← hpay]
      have hpfx := payloadLoop_prefixes attempt attemptRepos
        project_repositories initPayloadState st hloop
      have hpfx' : st.repo_prefixes
          = project_repositories.map (fun r => repo_env_prefix_of (repo_slug r)) := by
        rw [hpfx]
        rfl
      have hinv : EnvPrimInv (finalizeEnv attempt st primaryId) :=
        finalizeEnv_primInv attempt st primaryId
          (payloadLoop_envPrimInv attempt attemptRepos project_repositories
            initPayloadState st hloop envPrimInv_nil)
      refine ⟨?_, ?_, ?_, ?_⟩
      · intro repo hr
        have hk := payloadLoop_member_keys attempt attemptRepos
          project_repositories initPayloadState st hloop repo hr
        rw [henv]
        refine ⟨finalizeEnv_mono attempt st primaryId hk.1,
                finalizeEnv_mono attempt st primaryId hk.2.1,
                finalizeEnv_mono attempt st primaryId hk.2.2.1,
                finalizeEnv_mono attempt st primaryId hk.2.2.2.1,
                finalizeEnv_mono attempt st primaryId hk.2.2.2.2.1, ?_⟩
        have hs : (envLookup
            ("VIBE_REPO_" ++ repo_env_prefix_of (repo_slug repo) ++ "_IS_PRIMARY")
            (finalizeEnv attempt st primaryId)).isSome = true :=
          finalizeEnv_mono attempt st primaryId hk.2.2.2.2.2
        obtain ⟨v, hv⟩ := Option.isSome_iff_exists.mp hs
        rcases envPrimInv_lookup hinv (lastIsY_append _) hv with h1 | h0
        · exact Or.inl (h1 ▸ hv)
        · exact Or.inr (h0 ▸ hv)
      · rw [henv, finalizeEnv_count, hpfx', List.length_map]
      · rw [henv, finalizeEnv_repositories, hpfx']
      · intro hnp
        have hnone := payloadLoop_primary_none attempt attemptRepos
          project_repositories initPayloadState st hloop hnp
        rw [hprim] at hnone
        exact absurd hnone (by simp [initPayloadState])

def c6Attempt : PayloadAttempt :=
  { id := "a", container_ref := some "/w", branch := some "main" }

def c6AttemptRepo : PayloadAttemptRepo :=
  { project_repository_id := "r1-ab", container_ref := some "/w", branch := none }

def c6Repo : ProjectRepoRow :=
  { id := "r1-ab", project_id := "p", name := "Main", git_repo_path := "/g",
    root_path := "", is_primary := true, created_at := 0 }

def c6Payload : ExecutorPayload :=
  match build_executor_payload c6Attempt [c6AttemptRepo] [c6Repo] with
  | .ok p => p
  | .error _ =>
    { version := 0, attempt_id := "", primary_repository_id := "",
      repositories := [], env := [] }

/-- Witness for C6 at a one-repository project whose repository is
primary. -/
theorem c6_executor_payload_env_witness :
    envLookup "VIBE_REPOSITORY_COUNT" c6Payload.env = some "1" ∧
    (envLookup
        ("VIBE_REPO_" ++ repo_env_prefix_of (repo_slug c6Repo) ++ "_IS_PRIMARY")
        c6Payload.env = some "1" ∨
     envLookup
        ("VIBE_REPO_" ++ repo_env_prefix_of (repo_slug c6Repo) ++ "_IS_PRIMARY")
        c6Payload.env = some "0") := by
  have h := c6_executor_payload_env c6Attempt [c6AttemptRepo] [c6Repo]
    c6Payload rfl
  refine ⟨?_, (h.1 c6Repo (by simp)).2.2.2.2.2⟩
  exact h.2.1.trans (by rfl)

/-! ### Live diff stream: `process_file_changes`
(container.rs lines 886-913 and 1120-1214) -/

/-- Rust `str::strip_prefix` on character lists: `some` of the remainder
when the first list leads the second. -/
def dropPre : List Char → List Char → Option (List Char)
  | [], l => some l
  | _ :: _, [] => none
  | a :: ps, b :: l => if a = b then dropPre ps l else none

/-- `relativize_path` (container.rs lines 897-913): trim `/` from both
ends of the root, return unchanged if that is empty; otherwise normalize
`\` to `/`, ensure a trailing `/`, and strip it as a leading part of the
value; a value equal to the trimmed root becomes `""`. -/
def relativize_path (path : Option String) (root : String) : Option String :=
  match path with
  | none => none
  | some value =>
    let trimmed : List Char :=
      (root.data.dropWhile (· = '/')).rdropWhile (· = '/')
    if trimmed.isEmpty then some value
    else
      let normalized : List Char :=
        trimmed.map (fun c => if c = '\\' then '/' else c)
      let normalized2 : List Char :=
        if normalized.getLast? = some '/' then normalized
        else normalized ++ ['/']
      match dropPre normalized2 value.data with
      | some stripped => some ⟨stripped⟩
      | none => if value.data = trimmed then some "" else some value

/-- `apply_repository_metadata` (container.rs lines 886-895). -/
def apply_repository_metadata (d : Diff) (repo : ProjectRepoRow) : Diff :=
  let base :=
    { d with repository_id := some repo.id,
             repository_name := some repo.name,
             repository_root := some repo.root_path }
  if repo.root_path.isEmpty then base
  else
    { base with old_path := relativize_path base.old_path repo.root_path,
                new_path := relativize_path base.new_path repo.root_path }

/-- Modelled from the spec: `GitService::diff_path` (git service crate,
outside src/) — "canonical string used as the JSON-patch key (new path if
present, else old path)". -/
def diff_path (d : Diff) : String :=
  match d.new_path with
  | some p => p
  | none => d.old_path.getD ""

/-- The JSON-patch messages `process_file_changes` emits.  The
JSON-pointer escaping of the key (`escape_json_pointer_segment`, outside
src/) is a serialization detail not modelled: messages carry the raw
path. -/
inductive StreamMsg
  | addDiff (path : String) (d : Diff)
  | removeDiff (path : String)
deriving DecidableEq

structure PfcResult where
  msgs : List StreamMsg
  files_with_diffs : List String
  sent : Nat
  fullSent : List String
deriving DecidableEq

/-- The `for mut diff in current_diffs` loop (lines 1143-1202).  Lines
1145-1184 inline exactly the `apply_stream_omit_policy` logic, reused
here; `files_with_diffs` is the HashSet as an insertion list (membership
is all that is consumed), `fullSent` the shared `full_sent_paths` set. -/
def pfcLoop (hunk : String → String → String) (repo : ProjectRepoRow) :
    List Diff → Nat → List String → List String → List StreamMsg →
      PfcResult
  | [], sent, fullSent, files, msgs =>
    { msgs := msgs, files_with_diffs := files, sent := sent,
      fullSent := fullSent }
  | d :: rest, sent, fullSent, files, msgs =>
    let p := apply_stream_omit_policy hunk d sent
    let d1 := apply_repository_metadata p.1 repo
    let fp := diff_path d1
    let files1 := files ++ [fp]
    if d1.content_omitted then
      if fp ∈ fullSent then
        pfcLoop hunk repo rest p.2 fullSent files1 msgs
      else
        pfcLoop hunk repo rest p.2 fullSent files1
          (msgs ++ [StreamMsg.addDiff fp d1])
    else
      pfcLoop hunk repo rest p.2 (fp :: fullSent) files1
        (msgs ++ [StreamMsg.addDiff fp d1])

/-- `process_file_changes` (lines 1120-1214): run the diff loop, then emit
a RemoveDiff for every changed path not among the current diffs' paths
(lines 1204-1211).  `current_diffs` stands for the external
`git_service.get_diffs` result for the changed paths; `sent` / `fullSent`
are the stream's shared `cumulative_bytes` / `full_sent_paths` state. -/
def process_file_changes (hunk : String → String → String)
    (repo : ProjectRepoRow) (current_diffs : List Diff)
    (changed_paths : List String) (sent : Nat) (fullSent : List String) :
    PfcResult :=
  let r := pfcLoop hunk repo current_diffs sent fullSent [] []
  let removeMsgs := (changed_paths.filter
      (fun q => decide (¬ q ∈ r.files_with_diffs))).map
      (fun q => StreamMsg.removeDiff q)
  { msgs := r.msgs ++ removeMsgs,
    files_with_diffs := r.files_with_diffs, sent := r.sent,
    fullSent := r.fullSent }

/-- The omit policy never touches the diff's paths. -/
theorem apply_policy_paths (hunk : String → String → String) (d : Diff)
    (sent : Nat) :
    (apply_stream_omit_policy hunk d sent).1.old_path = d.old_path ∧
    (apply_stream_omit_policy hunk d sent).1.new_path = d.new_path := by
  unfold apply_stream_omit_policy
  by_cases h0 : diffContentSize d = 0
  · rw [if_pos h0]
    exact ⟨rfl, rfl⟩
  · rw [if_neg h0]
    by_cases hov : sent + diffContentSize d > MAX_CUMULATIVE_DIFF_BYTES
    · rw [if_pos hov]
      by_cases hnd : d.additions = none ∧ d.deletions = none
      · rw [if_pos hnd]
        exact ⟨rfl, rfl⟩
      · rw [if_neg hnd]
        exact ⟨rfl, rfl⟩
    · rw [if_neg hov]
      exact ⟨rfl, rfl⟩

/-- The JSON-patch key of a diff depends only on its paths, which the
omit policy preserves. -/
theorem diff_path_metadata_policy (hunk : String → String → String)
    (d : Diff) (sent : Nat) (repo : ProjectRepoRow) :
    diff_path (apply_repository_metadata
        (apply_stream_omit_policy hunk d sent).1 repo)
      = diff_path (apply_repository_metadata d repo) := by
  obtain ⟨ho, hn⟩ := apply_policy_paths hunk d sent
  unfold apply_repository_metadata diff_path
  by_cases hr : repo.root_path.isEmpty
  · rw [if_pos hr, if_pos hr]
    dsimp only
    rw [ho, hn]
  · rw [if_neg hr, if_neg hr]
    dsimp only
    rw [ho, hn]

/-- The diff loop only appends AddDiff messages to its accumulator. -/
theorem pfcLoop_msgs_shape (hunk : String → String → String)
    (repo : ProjectRepoRow) :
    ∀ (diffs : List Diff) (sent : Nat) (fullSent files : List String)
      (msgs : List StreamMsg) (x : StreamMsg),
      x ∈ (pfcLoop hunk repo diffs sent fullSent files msgs).msgs →
      x ∈ msgs ∨ ∃ fp d, x = StreamMsg.addDiff fp d
  | [], sent, fullSent, files, msgs, x, hx => Or.inl hx
  | d :: rest, sent, fullSent, files, msgs, x, hx => by
    unfold pfcLoop at hx
    dsimp only at hx
    split at hx
    · split at hx
      · exact pfcLoop_msgs_shape hunk repo rest _ _ _ _ x hx
      · rcases pfcLoop_msgs_shape hunk repo rest _ _ _ _ x hx with hm | he
        · rcases List.mem_append.mp hm with h1 | h2
          · exact Or.inl h1
          · exact Or.inr ⟨_, _, List.mem_singleton.mp h2⟩
        · exact Or.inr he
    · rcases pfcLoop_msgs_shape hunk repo rest _ _ _ _ x hx with hm | he
      · rcases List.mem_append.mp hm with h1 | h2
        · exact Or.inl h1
        · exact Or.inr ⟨_, _, List.mem_singleton.mp h2⟩
      · exact Or.inr he

/-- The loop's `files_with_diffs` is the accumulator plus the JSON-patch
key of every current diff (after repository metadata). -/
theorem pfcLoop_files (hunk : String → String → String)
    (repo : ProjectRepoRow) :
    ∀ (diffs : List Diff) (sent : Nat) (fullSent files : List String)
      (msgs : List StreamMsg),
      (pfcLoop hunk repo diffs sent fullSent files msgs).files_with_diffs
        = files ++ diffs.map
            (fun d => diff_path (apply_repository_metadata d repo))
  | [], sent, fullSent, files, msgs => by
    simp [pfcLoop]
  | d :: rest, sent, fullSent, files, msgs => by
    unfold pfcLoop
    dsimp only
    split
    · split
      · rw [pfcLoop_files hunk repo rest _ _ _ _,
            diff_path_metadata_policy]
        simp [List.append_assoc]
      · rw [pfcLoop_files hunk repo rest _ _ _ _,
            diff_path_metadata_policy]
        simp [List.append_assoc]
    · rw [pfcLoop_files hunk repo rest _ _ _ _,
          diff_path_metadata_policy]
      simp [List.append_assoc]

/-- C9 (amended): in each debounced batch, a RemoveDiff for path `p` is
emitted if and only if `p` is among the batch's changed paths and `p` is
not the JSON-patch key of any diff in the current worktree-vs-base diff —
independently of whether the stream previously carried a diff for `p`
(the code keeps no record of previously emitted diff paths). -/
theorem c9_remove_diff_emission (hunk : String → String → String)
    (repo : ProjectRepoRow) (current_diffs : List Diff)
    (changed_paths : List String) (sent : Nat) (fullSent : List String)
    (p : String) :
    StreamMsg.removeDiff p ∈ (process_file_changes hunk repo current_diffs
        changed_paths sent fullSent).msgs
      ↔ p ∈ changed_paths ∧
        ¬ p ∈ current_diffs.map
            (fun d => diff_path (apply_repository_metadata d repo)) := by
  unfold process_file_changes
  dsimp only
  constructor
  · intro hx
    rcases List.mem_append.mp hx with hm | hr
    · rcases pfcLoop_msgs_shape hunk repo current_diffs sent fullSent [] []
        _ hm with h0 | ⟨fp, d, he⟩
      · exact absurd h0 (by simp)
      · exact absurd he (by simp)
    · rcases List.mem_map.mp hr with ⟨q, hq, he⟩
      have hpq : q = p := by
        injection he with h2
      subst hpq
      have hfq := List.mem_filter.mp hq
      refine ⟨hfq.1, ?_⟩
      have hnot : ¬ q ∈ (pfcLoop hunk repo current_diffs sent fullSent
          [] []).files_with_diffs := by
        simpa using hfq.2
      rw [pfcLoop_files] at hnot
      simpa using hnot
  · intro hpn
    apply List.mem_append.mpr
    right
    apply List.mem_map.mpr
    refine ⟨p, ?_, rfl⟩
    apply List.mem_filter.mpr
    refine ⟨hpn.1, ?_⟩
    rw [pfcLoop_files hunk repo current_diffs sent fullSent [] []]
    simpa using hpn.2

def c9hunk : String → String → String := fun _ _ => ""

def c9repo : ProjectRepoRow :=
  { id := "r", project_id := "p", name := "R", git_repo_path := "/g",
    root_path := "", is_primary := true, created_at := 0 }

/-- C9 counterexample: on the very first debounced batch of a fresh
stream (nothing emitted yet: zero cumulative bytes, empty
full-sent set), a changed path with no current diff still receives a
RemoveDiff, although it never previously had a diff in the stream — so
the claim's "only if that path previously had a diff" direction fails. -/
theorem c9_counterexample :
    (process_file_changes c9hunk c9repo [] ["a.txt"] 0 []).msgs
      = [StreamMsg.removeDiff "a.txt"] := rfl
